import Mathlib

/-!
Shallow embedding, in Lean 4, of parts of the Caissa chess engine:
the transposition table replacement policy, static exchange evaluation,
selected pieces of the negamax search driver, the node cache statistics,
the time manager and the incremental Zobrist hashing of positions.

Machine integers are modelled as `Nat`/`Int`; 64-bit wrap-around is made
explicit with `% 2 ^ 64` where the source relies on `uint64_t` overflow.
Floating point arithmetic of the time manager is modelled over `ℝ`.
-/

namespace Caissa

set_option maxHeartbeats 1000000


/-! ### Generic list helpers (indexing with default, point update) -/

/-- Read a list element with a default value, mirroring `std::vector` indexing. -/
def listGetD {α : Type} (l : List α) (i : Nat) (d : α) : α :=
  match l, i with
  | [], _ => d
  | x :: _, 0 => x
  | _ :: xs, n + 1 => listGetD xs n d

/-! ### Transposition table (src/TranspositionTable.cpp)

`TranspositionTableEntry` is declared in `TranspositionTable.hpp`, which is
not part of the sources; its fields are taken from the uses in
`src/TranspositionTable.cpp` and from spec section 3 (Zobrist key, packed
best moves, score, static eval, signed depth, 2-bit bounds flag). -/

/-- The 2-bit bounds flag of a transposition table entry. -/
inductive TTFlag where
  | invalid
  | lowerBound
  | upperBound
  | exact
deriving DecidableEq, Repr

/-- A transposition table entry. -/
structure TTEntryE where
  positionHash : Nat
  score : Int
  staticEval : Int
  depth : Int
  flag : TTFlag
  bestMove : Nat
deriving DecidableEq, Repr

instance : Inhabited TTEntryE :=
  ⟨⟨0, 0, 0, 0, TTFlag.invalid, 0⟩⟩

/-- `TranspositionTableEntry::IsValid`: the validity bit is `bounds ≠ Invalid`
(spec section 3 invariant `IsValid ⇔ bounds ≠ Invalid`). -/
def TTEntryE.isValid (e : TTEntryE) : Bool :=
  e.flag != TTFlag.invalid

/-- `TranspositionTable::Write(const TranspositionTableEntry&)`
(src/TranspositionTable.cpp, lines 70-98).  The entry vector is modelled as a
list; `entries[i] = e` on an in-range index is `List.set`. -/
def ttWrite (entries : List TTEntryE) (entry : TTEntryE) : List TTEntryE :=
  if entries.length = 0 then entries
  else
    let hashmapMask := entries.length - 1
    let idx := entry.positionHash &&& hashmapMask
    let existingEntry := listGetD entries idx default
    if existingEntry.positionHash = entry.positionHash ∧
        existingEntry.depth > entry.depth ∧ existingEntry.flag = entry.flag then
      entries
    else
      entries.set idx entry

/-! ### Bitboards and squares

`Bitboard` (src/src/backend/Bitboard.hpp) wraps a `uint64_t`; it is modelled
as a `Nat` kept below `2 ^ 64`.  A square index is `8 * rank + file`
(`Square.hpp` is not in the sources; the layout follows the uses in
Position.cpp: `Square(file, rank)`, `File()`, `Rank()`, `Index()`). -/

/-- All 64 bits set (`Bitboard::Full`). -/
def bbFull : Nat := 2 ^ 64 - 1

/-- `square.GetBitboard()`: the single-bit board of a square index. -/
def squareBB (sq : Nat) : Nat := 1 <<< sq

/-- Bitwise complement of a 64-bit board (`operator~` on `uint64_t`). -/
def bbNot (b : Nat) : Nat := b ^^^ bbFull

/-- The lowest set bit of a board as a single-bit board: the source computes
`1ull << FirstBitSet(b)`; for `b ≠ 0` this equals `b ^^^ (b &&& (b - 1))`. -/
def lowBit (b : Nat) : Nat := b ^^^ (b &&& (b - 1))

/-- Piece kind (`Piece.hpp` is not in the sources; the numbering
None=0, Pawn=1, Knight=2, Bishop=3, Rook=4, Queen=5, King=6 follows the
`c_seePieceValues` indexing and `pieceIndex = (uint32_t)piece - 1` in
Position.cpp). -/
inductive PieceE where
  | none
  | pawn
  | knight
  | bishop
  | rook
  | queen
  | king
deriving DecidableEq, Repr

/-- Side color. -/
inductive ColorE where
  | white
  | black
deriving DecidableEq, Repr

/-- `GetOppositeColor`. -/
def ColorE.opposite : ColorE → ColorE
  | .white => .black
  | .black => .white

/-! Attack generation lives in `Bitboard.cpp`, which is not part of the
sources (the spec lists move generation / bitboards as external collaborators,
section 1).  The generators below are modelled from the spec: sliding attacks
walk the 8 `RayDir` directions until a blocker (spec section 3 and glossary);
leaper attacks use the standard king/knight/pawn geometry. -/

/-- Modelled from the spec: one sliding-attack ray from square (`file`,`rank`)
in direction (`df`,`dr`), stopping at (and including) the first blocker.
`Bitboard.cpp` with `GenerateRookAttacks`/`GenerateBishopAttacks` is missing
from the sources. -/
def rayAttacks (occupied : Nat) (df dr : Int) : Nat → Int → Int → Nat
  | 0, _, _ => 0
  | fuel + 1, file, rank =>
    let f := file + df
    let r := rank + dr
    if 0 ≤ f ∧ f < 8 ∧ 0 ≤ r ∧ r < 8 then
      let bb := squareBB (r * 8 + f).toNat
      if occupied &&& bb ≠ 0 then bb
      else bb ||| rayAttacks occupied df dr fuel f r
    else 0

/-- Modelled from the spec: `Bitboard::GenerateRookAttacks(square, blockers)`. -/
def genRookAttacks (sq : Nat) (occupied : Nat) : Nat :=
  let f : Int := sq % 8
  let r : Int := sq / 8
  rayAttacks occupied 0 1 7 f r ||| rayAttacks occupied 0 (-1) 7 f r |||
    rayAttacks occupied 1 0 7 f r ||| rayAttacks occupied (-1) 0 7 f r

/-- Modelled from the spec: `Bitboard::GenerateBishopAttacks(square, blockers)`. -/
def genBishopAttacks (sq : Nat) (occupied : Nat) : Nat :=
  let f : Int := sq % 8
  let r : Int := sq / 8
  rayAttacks occupied 1 1 7 f r ||| rayAttacks occupied 1 (-1) 7 f r |||
    rayAttacks occupied (-1) 1 7 f r ||| rayAttacks occupied (-1) (-1) 7 f r

/-- Modelled from the spec: board of a list of (file, rank) offsets from a
square, dropping off-board targets. -/
def offsetsBB (sq : Nat) (offsets : List (Int × Int)) : Nat :=
  let f : Int := sq % 8
  let r : Int := sq / 8
  offsets.foldl
    (fun acc o =>
      let nf := f + o.1
      let nr := r + o.2
      if 0 ≤ nf ∧ nf < 8 ∧ 0 ≤ nr ∧ nr < 8 then
        acc ||| squareBB (nr * 8 + nf).toNat
      else acc) 0

/-- Modelled from the spec: `Bitboard::GetKingAttacks(square)`. -/
def kingAttacks (sq : Nat) : Nat :=
  offsetsBB sq [(1, 0), (-1, 0), (0, 1), (0, -1), (1, 1), (1, -1), (-1, 1), (-1, -1)]

/-- Modelled from the spec: `Bitboard::GetKnightAttacks(square)`. -/
def knightAttacks (sq : Nat) : Nat :=
  offsetsBB sq [(1, 2), (2, 1), (2, -1), (1, -2), (-1, -2), (-2, -1), (-2, 1), (-1, 2)]

/-- Modelled from the spec: `Bitboard::GetPawnAttacks(square, color)` — the
squares a pawn of the given color standing on `sq` attacks (white pawns
attack towards higher ranks). -/
def pawnAttacks (color : ColorE) (sq : Nat) : Nat :=
  match color with
  | .white => offsetsBB sq [(-1, 1), (1, 1)]
  | .black => offsetsBB sq [(-1, -1), (1, -1)]

/-! ### Position (bitboard part) -/

/-- `SidePosition`: the per-color piece bitboards (fields from the uses in
Position.cpp). -/
structure SidePositionE where
  pawns : Nat
  knights : Nat
  bishops : Nat
  rooks : Nat
  queens : Nat
  king : Nat
deriving DecidableEq, Repr

/-- `SidePosition::Occupied()`. -/
def SidePositionE.occupied (s : SidePositionE) : Nat :=
  s.pawns ||| s.knights ||| s.bishops ||| s.rooks ||| s.queens ||| s.king

/-- `SidePosition::GetPieceBitBoard(piece)` for a real piece; `Piece::None`
has no bitboard (undefined behavior in the source, guarded by asserts). -/
def SidePositionE.pieceBB (s : SidePositionE) : PieceE → Nat
  | .none => 0
  | .pawn => s.pawns
  | .knight => s.knights
  | .bishop => s.bishops
  | .rook => s.rooks
  | .queen => s.queens
  | .king => s.king

/-- `SidePosition::GetPieceAtSquare` (Position.cpp lines 72-88): successive
overriding checks, the later board wins on (corrupt) overlap. -/
def SidePositionE.getPieceAtSquare (s : SidePositionE) (sq : Nat) : PieceE :=
  let bb := squareBB sq
  let p := PieceE.none
  let p := if s.pawns &&& bb ≠ 0 then PieceE.pawn else p
  let p := if s.knights &&& bb ≠ 0 then PieceE.knight else p
  let p := if s.bishops &&& bb ≠ 0 then PieceE.bishop else p
  let p := if s.rooks &&& bb ≠ 0 then PieceE.rook else p
  let p := if s.queens &&& bb ≠ 0 then PieceE.queen else p
  let p := if s.king &&& bb ≠ 0 then PieceE.king else p
  p

/-- `Position` (the fields used by the embedded operations; `mColors[0]` is
white, `mColors[1]` is black). The en-passant square is `Option` for
`Square::Invalid`, castling rights are two booleans per side. -/
structure PositionE where
  white : SidePositionE
  black : SidePositionE
  sideToMove : ColorE
  epSquare : Option Nat
  whiteShortCastle : Bool
  whiteLongCastle : Bool
  blackShortCastle : Bool
  blackLongCastle : Bool
  halfMoveCount : Nat
  moveCount : Nat
  hash : Nat
deriving DecidableEq, Repr

/-- `mColors[(uint8_t)color]`. -/
def PositionE.side (p : PositionE) : ColorE → SidePositionE
  | .white => p.white
  | .black => p.black

/-- `Position::GetCurrentSide`. -/
def PositionE.currentSide (p : PositionE) : SidePositionE :=
  p.side p.sideToMove

/-- `Position::GetOpponentSide`. -/
def PositionE.opponentSide (p : PositionE) : SidePositionE :=
  p.side p.sideToMove.opposite

/-- `Position::GetAttackers(square)` (Position.cpp lines 468-506): all
attackers of a square, both colors. -/
def PositionE.getAttackers (p : PositionE) (sq : Nat) : Nat :=
  let pawns := p.white.pawns ||| p.black.pawns
  let knights := p.white.knights ||| p.black.knights
  let bishops := p.white.bishops ||| p.black.bishops
  let rooks := p.white.rooks ||| p.black.rooks
  let queens := p.white.queens ||| p.black.queens
  let kings := p.white.king ||| p.black.king
  let occupiedSquares := pawns ||| knights ||| bishops ||| rooks ||| queens ||| kings
  let bitboard := kingAttacks sq &&& kings
  let bitboard := if knights ≠ 0 then bitboard ||| (knightAttacks sq &&& knights) else bitboard
  let bitboard :=
    if rooks ||| queens ≠ 0 then
      bitboard ||| (genRookAttacks sq occupiedSquares &&& (rooks ||| queens))
    else bitboard
  let bitboard :=
    if bishops ||| queens ≠ 0 then
      bitboard ||| (genBishopAttacks sq occupiedSquares &&& (bishops ||| queens))
    else bitboard
  let bitboard :=
    if p.white.pawns ≠ 0 then bitboard ||| (pawnAttacks .black sq &&& p.white.pawns)
    else bitboard
  let bitboard :=
    if p.black.pawns ≠ 0 then bitboard ||| (pawnAttacks .white sq &&& p.black.pawns)
    else bitboard
  bitboard

/-! ### Moves (src/src/backend/Move.hpp) -/

/-- `Move`: a 32-bit packed value; accessors follow Move.hpp exactly. -/
structure MoveE where
  value : Nat
deriving DecidableEq, Repr

def MoveE.fromSquare (m : MoveE) : Nat := m.value &&& 63

def MoveE.toSquare (m : MoveE) : Nat := (m.value >>> 6) &&& 63

/-- `(Piece)((value >> 12) & 0b1111)`; values 7..15 are outside the enum. -/
def pieceOfNat (n : Nat) : PieceE :=
  if n = 1 then .pawn else if n = 2 then .knight else if n = 3 then .bishop
  else if n = 4 then .rook else if n = 5 then .queen else if n = 6 then .king
  else .none

def MoveE.promoteTo (m : MoveE) : PieceE := pieceOfNat ((m.value >>> 12) &&& 15)

def MoveE.piece (m : MoveE) : PieceE := pieceOfNat ((m.value >>> 16) &&& 15)

def MoveE.isCapture (m : MoveE) : Bool := (m.value >>> 20) &&& 1 = 1

def MoveE.isEnPassant (m : MoveE) : Bool := (m.value >>> 21) &&& 1 = 1

def MoveE.isCastling (m : MoveE) : Bool := (m.value >>> 22) &&& 1 = 1

/-- `Move::Make` (Move.hpp lines 76-90). -/
def makeMove (fromSq toSq : Nat) (piece promoteTo : PieceE)
    (isCapture isEnPassant isCastling : Bool) : MoveE :=
  ⟨fromSq ||| (toSq <<< 6) ||| (pieceNat promoteTo <<< 12) ||| (pieceNat piece <<< 16) |||
    ((if isCapture then 1 else 0) <<< 20) ||| ((if isEnPassant then 1 else 0) <<< 21) |||
    ((if isCastling then 1 else 0) <<< 22)⟩
where
  pieceNat : PieceE → Nat
    | .none => 0
    | .pawn => 1
    | .knight => 2
    | .bishop => 3
    | .rook => 4
    | .queen => 5
    | .king => 6

/-! ### Static exchange evaluation (Position.cpp lines 1074-1266) -/

def pawnValueE : Int := 100

def knightValueE : Int := 300

def bishopValueE : Int := 300

def rookValueE : Int := 500

def queenValueE : Int := 900

/-- `kingValue = INT32_MAX`. -/
def kingValueE : Int := 2147483647

/-- `c_seePieceValues` (Position.cpp lines 1108-1117). -/
def seePieceValue : PieceE → Int
  | .none => 0
  | .pawn => pawnValueE
  | .knight => knightValueE
  | .bishop => bishopValueE
  | .rook => rookValueE
  | .queen => queenValueE
  | .king => kingValueE

/-- The common tail of every attacker branch of the exchange loop:
`balance = value - balance; if (balance < result) break;` followed by the
next iteration (`cont`).  Breaking returns the current `result`. -/
def seeTail (v balance : Int) (result : Bool) (cont : Int → Bool → Bool) : Bool :=
  let balance := v - balance
  if balance < (if result then 1 else 0) then result else cont balance result

/-- The `for (;;)` exchange loop of `Position::StaticExchangeEvaluation`
(Position.cpp lines 1143-1263), with explicit fuel (each iteration that does
not exit removes one bit from `occupied`, so any fuel above the bit count of
`occupied` is never exhausted; the callers pass 65).

`queenBranchValue` is the amount added in the queen-attacker branch: the
source (line 1225) uses `rookValue` there, while the spec's piece table
prescribes `queenValue`; the two instantiations are compared below. -/
def seeLoopWith (queenBranchValue : Int) (p : PositionE) (toSquare : Nat) :
    Nat → Nat → Nat → ColorE → Int → Bool → Bool
  | 0, _, _, _, _, result => result
  | fuel + 1, occupied, allAttackers, sideToMove, balance, result =>
    let sideToMove := sideToMove.opposite
    let allAttackers := allAttackers &&& occupied
    let side := p.side sideToMove
    let ourAttackers := allAttackers &&& side.occupied
    if ourAttackers = 0 then result
    else
      let result := !result
      if ourAttackers &&& side.pawns ≠ 0 then
        let mask := lowBit (ourAttackers &&& side.pawns)
        let occupied := occupied ^^^ mask
        let allAttackers := allAttackers |||
          (genBishopAttacks toSquare occupied &&&
            (p.white.bishops ||| p.black.bishops ||| p.white.queens ||| p.black.queens))
        seeTail pawnValueE balance result
          (seeLoopWith queenBranchValue p toSquare fuel occupied allAttackers sideToMove)
      else if ourAttackers &&& side.knights ≠ 0 then
        let mask := lowBit (ourAttackers &&& side.knights)
        let occupied := occupied ^^^ mask
        seeTail knightValueE balance result
          (seeLoopWith queenBranchValue p toSquare fuel occupied allAttackers sideToMove)
      else if ourAttackers &&& side.bishops ≠ 0 then
        let mask := lowBit (ourAttackers &&& side.bishops)
        let occupied := occupied ^^^ mask
        let allAttackers := allAttackers |||
          (genBishopAttacks toSquare occupied &&&
            (p.white.bishops ||| p.black.bishops ||| p.white.queens ||| p.black.queens))
        seeTail bishopValueE balance result
          (seeLoopWith queenBranchValue p toSquare fuel occupied allAttackers sideToMove)
      else if ourAttackers &&& side.rooks ≠ 0 then
        let mask := lowBit (ourAttackers &&& side.rooks)
        let occupied := occupied ^^^ mask
        let allAttackers := allAttackers |||
          (genRookAttacks toSquare occupied &&&
            (p.white.rooks ||| p.black.rooks ||| p.white.queens ||| p.black.queens))
        seeTail rookValueE balance result
          (seeLoopWith queenBranchValue p toSquare fuel occupied allAttackers sideToMove)
      else if ourAttackers &&& side.queens ≠ 0 then
        let mask := lowBit (ourAttackers &&& side.queens)
        let occupied := occupied ^^^ mask
        let allAttackers := allAttackers |||
          (genBishopAttacks toSquare occupied &&&
            (p.white.bishops ||| p.black.bishops ||| p.white.queens ||| p.black.queens))
        let allAttackers := allAttackers |||
          (genRookAttacks toSquare occupied &&&
            (p.white.rooks ||| p.black.rooks ||| p.white.queens ||| p.black.queens))
        seeTail queenBranchValue balance result
          (seeLoopWith queenBranchValue p toSquare fuel occupied allAttackers sideToMove)
      else
        if allAttackers &&& p.opponentSide.occupied ≠ 0 then !result else result

/-- `Position::StaticExchangeEvaluation(move, treshold)` (Position.cpp lines
1103-1266), parametrized by the queen-attacker-branch value as above. -/
def staticExchangeEvaluationWith (queenBranchValue : Int) (p : PositionE) (move : MoveE)
    (treshold : Int) : Bool :=
  let toSquare := move.toSquare
  let fromSquare := move.fromSquare
  let occupied := p.white.occupied ||| p.black.occupied
  let allAttackers := p.getAttackers toSquare
  let capturedPiece := p.opponentSide.getPieceAtSquare toSquare
  let balance := seePieceValue capturedPiece - treshold
  if balance < 0 then false
  else
    let movedPiece := p.currentSide.getPieceAtSquare fromSquare
    let balance := seePieceValue movedPiece - balance
    if balance ≤ 0 then true
    else
      let occupied := occupied &&& bbNot (squareBB fromSquare)
      let occupied := occupied ||| squareBB toSquare
      seeLoopWith queenBranchValue p toSquare 65 occupied allAttackers p.sideToMove balance true

/-- `Position::StaticExchangeEvaluation` exactly as in the source: the
queen-attacker branch adds `rookValue` (Position.cpp line 1225). -/
def staticExchangeEvaluation (p : PositionE) (move : MoveE) (treshold : Int) : Bool :=
  staticExchangeEvaluationWith rookValueE p move treshold

/-- Modelled from the spec: the same exchange algorithm with the spec's piece
value table `{P:100, N:300, B:300, R:500, Q:900, K:max}` applied to every
participating piece, i.e. the queen-attacker branch adds `queenValue`. -/
def staticExchangeEvaluationSpecValues (p : PositionE) (move : MoveE) (treshold : Int) : Bool :=
  staticExchangeEvaluationWith queenValueE p move treshold

/-- A concrete position exercising the queen-attacker branch of the exchange
loop: white Nc3, Qd3, Rd1, Kh1 against black Pd5, Rd7, Rd8, Kh8, white to
move (squares are `8*rank + file`, a1 = 0). -/
def posSeeQueen : PositionE :=
  { white := { pawns := 0, knights := 1 <<< 18, bishops := 0, rooks := 1 <<< 3,
               queens := 1 <<< 19, king := 1 <<< 7 }
    black := { pawns := 1 <<< 35, knights := 0, bishops := 0,
               rooks := (1 <<< 51) ||| (1 <<< 59), queens := 0, king := 1 <<< 63 }
    sideToMove := .white
    epSquare := none
    whiteShortCastle := false, whiteLongCastle := false
    blackShortCastle := false, blackLongCastle := false
    halfMoveCount := 0, moveCount := 1, hash := 0 }

/-- The capture Nc3xd5 in `posSeeQueen`. -/
def mvSeeQueen : MoveE := makeMove 18 35 .knight .none true false false

/-- A concrete position where a rook captures an undefended pawn:
white Rd1, Kh1 against black Pd5, Kh8, white to move. -/
def posSeePawn : PositionE :=
  { white := { pawns := 0, knights := 0, bishops := 0, rooks := 1 <<< 3,
               queens := 0, king := 1 <<< 7 }
    black := { pawns := 1 <<< 35, knights := 0, bishops := 0, rooks := 0,
               queens := 0, king := 1 <<< 63 }
    sideToMove := .white
    epSquare := none
    whiteShortCastle := false, whiteLongCastle := false
    blackShortCastle := false, blackLongCastle := false
    halfMoveCount := 0, moveCount := 1, hash := 0 }

/-- The capture Rd1xd5 in `posSeePawn`. -/
def mvSeePawn : MoveE := makeMove 3 35 .rook .none true false false

/-! ### Search constants

`CheckmateValue`, `InfValue`, `KnownWinValue` live in a header that is not in
the sources; their values are modelled from spec section 3. -/

/-- Modelled from the spec: `CHECKMATE = 32000` (the header defining
`CheckmateValue` is not in the sources). -/
def checkmateValue : Int := 32000

/-- Modelled from the spec: `INF`, the maximum of the signed 16-bit score
domain (the header defining `InfValue` is not in the sources). -/
def infValue : Int := 32767

/-- Modelled from the spec: `KNOWN_WIN ≈ 25000` (the header defining
`KnownWinValue` is not in the sources). -/
def knownWinValue : Int := 25000

/-- `INT8_MAX`, the sentinel depth of checkmate terminal TT entries. -/
def int8Max : Int := 127

/-- Modelled from the spec: score rebiasing on TT write, `stored = score ±
height` if `|score| ≥ KNOWN_WIN` (spec section 4.1; `ScoreToTT` lives in a
header that is not in the sources). -/
def scoreToTT (score : Int) (height : Nat) : Int :=
  if score ≥ knownWinValue then score + height
  else if score ≤ -knownWinValue then score - height
  else score

/-- Modelled from the spec: the inverse rebiasing on TT read (spec section
4.1; the additional half-move-clock filtering applies to hit acceptance, not
to the rebiasing itself). -/
def scoreFromTT (score : Int) (height : Nat) : Int :=
  if score ≥ knownWinValue then score - height
  else if score ≤ -knownWinValue then score + height
  else score

/-! ### Mate-distance pruning (Search.cpp lines 1085-1091) -/

/-- The mate-distance-pruning step of a non-root `NegaMax` node: raise alpha
to `-CheckmateValue + height`, lower beta to `CheckmateValue - height - 1`,
and short-circuit with the raised alpha when the window closed. -/
def mateDistancePrune (alpha beta : Int) (height : Nat) : Option Int :=
  let alpha := max (-checkmateValue + height) alpha
  let beta := min (checkmateValue - height - 1) beta
  if alpha ≥ beta then some alpha else none

/-! ### Aspiration window update (Search.cpp lines 622-730) -/

/-- `BoundsType` of a reported PV line. -/
inductive BoundsTypeE where
  | exact
  | lowerBound
  | upperBound
deriving DecidableEq, Repr

/-- `AspirationWindowMaxSize = 500` (Search.cpp line 41). -/
def aspirationWindowMaxSize : Int := 500

/-- `AspirationWindowDepthStart = 6` (Search.cpp line 40). -/
def aspirationWindowDepthStart : Nat := 6

/-- One window update of `Search::AspirationWindowSearch` after an iteration
returned `score` (Search.cpp lines 675-702): widen the window, then handle
fail-low / fail-high / exact.  Result components: reported score, new alpha,
new beta, new window, bounds type, new depth.  `Int.tdiv` is the C++
truncating integer division. -/
def aspirationWindowStep (alpha beta window score : Int) (depth paramDepth : Nat) :
    Int × Int × Int × Int × BoundsTypeE × Nat :=
  let window := 2 * window + 5
  let window := if window > aspirationWindowMaxSize then checkmateValue else window
  if score ≤ alpha then
    let score := alpha
    let beta := (alpha + beta + 1).tdiv 2
    let alpha := score - window
    let alpha := max alpha (-checkmateValue)
    (score, alpha, beta, window, BoundsTypeE.upperBound, depth)
  else if score ≥ beta then
    let score := beta
    let beta := beta + window
    let beta := min beta checkmateValue
    let depth := if depth > aspirationWindowDepthStart ∧ depth + 3 > paramDepth then
      depth - 1 else depth
    (score, alpha, beta, window, BoundsTypeE.lowerBound, depth)
  else
    (score, alpha, beta, window, BoundsTypeE.exact, depth)

/-- The loop exit test of `AspirationWindowSearch` (Search.cpp line 723):
`boundsType == BoundsType::Exact || stopSearch`. -/
def aspirationLoopBreaks (bounds : BoundsTypeE) (stopSearch : Bool) : Bool :=
  bounds == BoundsTypeE.exact || stopSearch

/-! ### The no-legal-moves epilogue of NegaMax (Search.cpp lines 1672-1688) -/

/-- The `moveIndex == 0 && !searchAborted` epilogue of `Search::NegaMax`:
with a move filter active it returns `-InfValue`; otherwise it returns the
mate / stalemate score and writes an exact TT entry at the sentinel depth
`INT8_MAX` (the entry assembly from the write arguments follows the spec's
entry description; the search-side `Write` overload lives in a header that is
not in the sources, the replacement policy is `ttWrite` above). -/
def negamaxNoLegalMovesEpilogue (isInCheck : Bool) (height : Nat)
    (filteredSomeMove : Bool) (positionHash : Nat) (tt : List TTEntryE) :
    Int × List TTEntryE :=
  if filteredSomeMove then (-infValue, tt)
  else
    let bestValue : Int := if isInCheck then -checkmateValue + height else 0
    (bestValue,
      ttWrite tt
        { positionHash := positionHash, score := scoreToTT bestValue height,
          staticEval := bestValue, depth := int8Max, flag := TTFlag.exact, bestMove := 0 })

/-! ### DoSearch early phase (Search.cpp lines 160-228) -/

/-- `PvLine { score, moves[] }` (spec section 3). -/
structure PvLineE where
  moves : List MoveE
  score : Int
deriving DecidableEq, Repr

/-- Outcome of the early phase of `Search::DoSearch` (lines 160-228):
either an immediate return with the result vector, or execution falls
through to the root-tablebase probe and the iterative-deepening search. -/
inductive DoSearchEarlyOutcome where
  | immediate (result : List PvLineE)
  | proceeds (numPvLines : Nat)
deriving DecidableEq, Repr

/-- The early phase of `Search::DoSearch`: invalid position and no-legal-move
early exits, then the single-legal-move shortcut (lines 196-204).  Inputs
computed by external collaborators (`Position::IsValid`,
`GetNumLegalMoves`) are passed in: `legalMoves` is the generated legal move
list, `maxTimeValid` is `param.limits.maxTime.IsValid()`. -/
def doSearchEarly (positionIsValid : Bool) (legalMoves : List MoveE)
    (numPvLinesParam : Nat) (analysisMode maxTimeValid : Bool) : DoSearchEarlyOutcome :=
  if positionIsValid = false then .immediate []
  else
    let numLegalMoves := legalMoves.length
    let numPvLines := min numPvLinesParam numLegalMoves
    if numPvLines = 0 then .immediate []
    else if analysisMode = false ∧ maxTimeValid = true ∧ numLegalMoves = 1 then
      .immediate [{ moves := [listGetD legalMoves 0 ⟨0⟩], score := 0 }]
    else .proceeds numPvLines

/-! ### Node cache (src/src/backend/NodeCache.cpp)

`NodeCacheEntry`'s layout is declared in `NodeCache.hpp`, which is not in the
sources; the `MoveInfo { move, nodesSearched, isBestMove }` fields follow the
uses in NodeCache.cpp, and `MaxMoves = 64` is modelled from the spec
(section 3: "up to `MaxMoves = 64` moves per position").  The 64-bit counters
wrap modulo `2 ^ 64`. -/

/-- Modelled from the spec: `NodeCacheEntry::MaxMoves = 64`. -/
def nodeCacheMaxMoves : Nat := 64

/-- `Move::operator==` compares the low 23 bits (`Move::mask`, Move.hpp). -/
def moveEq (a b : MoveE) : Bool :=
  a.value &&& ((1 <<< 23) - 1) == b.value &&& ((1 <<< 23) - 1)

/-- `Move::IsValid`: nonzero packed value. -/
def MoveE.isValid (m : MoveE) : Bool := m.value != 0

/-- One per-move slot of a node cache entry. -/
structure NodeCacheMoveInfo where
  move : MoveE
  nodesSearched : Nat
  isBestMove : Bool
deriving DecidableEq, Repr

instance : Inhabited NodeCacheMoveInfo :=
  ⟨⟨⟨0⟩, 0, false⟩⟩

/-- A node cache entry: the per-move histogram and the running node sum. -/
structure NodeCacheEntryE where
  moves : List NodeCacheMoveInfo
  nodesSum : Nat
deriving DecidableEq, Repr

/-- An empty (freshly allocated) entry. -/
def emptyNodeCacheEntry : NodeCacheEntryE :=
  { moves := List.replicate nodeCacheMaxMoves default, nodesSum := 0 }

/-- The wrapping 64-bit sum of the stored counters, as accumulated by
`ScaleDown`'s `nodesSum +=` loop. -/
def nodeCacheSum (l : List NodeCacheMoveInfo) : Nat :=
  l.foldl (fun acc mi => (acc + mi.nodesSearched) % 2 ^ 64) 0

/-- `NodeCacheEntry::ScaleDown` (NodeCache.cpp lines 31-40): halve every
counter and recompute the sum. -/
def scaleDown (e : NodeCacheEntryE) : NodeCacheEntryE :=
  let moves := e.moves.map (fun mi => { mi with nodesSearched := mi.nodesSearched / 2 })
  { moves := moves, nodesSum := nodeCacheSum moves }

/-- The scan loop of `NodeCacheEntry::AddMoveStats` (lines 64-89): walk the
slots; stop at the first slot holding `move`; otherwise track the
least-visited replacement candidate exactly as the source does.  Returns
(found index, final `minNodes`, final `minNodesMoveIndex`). -/
def amsScan (move : MoveE) (numNodes : Nat) :
    List NodeCacheMoveInfo → Nat → Nat → Nat → Option Nat × Nat × Nat
  | [], _, minNodes, minIdx => (none, minNodes, minIdx)
  | mi :: rest, i, minNodes, minIdx =>
    if moveEq mi.move move then (some i, minNodes, minIdx)
    else if !mi.move.isValid || (mi.nodesSearched < minNodes && mi.nodesSearched < numNodes) then
      amsScan move numNodes rest (i + 1) mi.nodesSearched i
    else
      amsScan move numNodes rest (i + 1) minNodes minIdx

/-- `NodeCacheEntry::AddMoveStats` (NodeCache.cpp lines 56-102).  The scan
starts with `minNodes = UINT64_MAX`, `minNodesMoveIndex = UINT32_MAX`.  On a
match the counter and sum are bumped and the entry is scaled down once the
counter reaches `UINT64_MAX / MaxMoves`; otherwise the least-visited slot is
replaced (its `isBestMove` bit is left as is). -/
def addMoveStats (e : NodeCacheEntryE) (move : MoveE) (numNodes : Nat) : NodeCacheEntryE :=
  match amsScan move numNodes e.moves 0 (2 ^ 64 - 1) (2 ^ 32 - 1) with
  | (some i, _, _) =>
    let mi := listGetD e.moves i default
    let newCount := (mi.nodesSearched + numNodes) % 2 ^ 64
    let e2 : NodeCacheEntryE :=
      { moves := e.moves.set i { mi with nodesSearched := newCount },
        nodesSum := (e.nodesSum + numNodes) % 2 ^ 64 }
    if newCount ≥ (2 ^ 64 - 1) / nodeCacheMaxMoves then scaleDown e2 else e2
  | (none, _, minIdx) =>
    if minIdx < nodeCacheMaxMoves then
      let mi := listGetD e.moves minIdx default
      { moves := e.moves.set minIdx
          { move := move, nodesSearched := numNodes, isBestMove := mi.isBestMove },
        nodesSum := ((e.nodesSum + (2 ^ 64 - mi.nodesSearched)) % 2 ^ 64 + numNodes) % 2 ^ 64 }
    else e

/-! ### Time manager (src/src/backend/TimeManager.cpp)

Floating point arithmetic (`float`/`double`, `std::pow`, `sqrtf`) is modelled
over `ℝ`; `std::clamp(v, lo, hi)` with `lo ≤ hi` is `min (max v lo) hi`.
Times are kept in milliseconds (the uniform `TimePoint::FromSeconds(0.001 * t)`
conversion is monotone bookkeeping and is dropped). -/

/-- `DEFINE_PARAM(TM_MovesLeftMidpoint, 41, 30, 60)` (TimeManager.cpp line 9). -/
def tmMovesLeftMidpoint : ℝ := 41

/-- `DEFINE_PARAM(TM_MovesLeftSteepness, 213, 150, 260)` (line 10). -/
def tmMovesLeftSteepness : ℝ := 213

/-- `DEFINE_PARAM(TM_IdealTimeFactor, 830, 700, 1000)` (line 11). -/
def tmIdealTimeFactor : ℝ := 830

/-- `EstimateMovesLeft` (TimeManager.cpp lines 21-27). -/
noncomputable def estimateMovesLeft (moves : ℕ) : ℝ :=
  let midpoint := tmMovesLeftMidpoint
  let steepness := tmMovesLeftSteepness / 100
  midpoint * (1 + 1.5 * ((moves : ℝ) / midpoint) ^ steepness) ^ (1 / steepness) - (moves : ℝ)

/-- The three search limits set by `InitTimeManager` (fields of
`SearchLimits`; times in milliseconds, `none` when not set). -/
structure SearchLimitsE where
  idealTimeMs : Option ℝ
  maxTimeMs : Option ℝ
  rootSingularityTimeMs : Option ℝ

/-- `InitTimeManager` (TimeManager.cpp lines 29-65).  The `INT32_MAX` /
`UINT32_MAX` sentinels of `remainingTime`, `movesToGo` and `moveTime` are
modelled as `Option`. -/
noncomputable def initTimeManager (remainingTime : Option ℝ) (timeIncrement : ℝ)
    (movesToGo : Option ℕ) (moveCount : ℕ) (moveOverhead : ℝ) (moveTime : Option ℝ)
    (limits : SearchLimitsE) : SearchLimitsE :=
  let movesLeft : ℝ :=
    match movesToGo with
    | some mtg => (mtg : ℝ)
    | none => estimateMovesLeft moveCount
  let limits :=
    match remainingTime with
    | none => limits
    | some remaining =>
      let idealTimeFactor := tmIdealTimeFactor / 1000
      let idealTime := idealTimeFactor * (remaining / movesLeft + timeIncrement)
      let maxTime := (remaining - moveOverhead) / Real.sqrt movesLeft + timeIncrement
      let minMoveTime : ℝ := 0.00001
      let timeMargin : ℝ := 0.5
      let maxTime :=
        min (max maxTime 0) (max minMoveTime (timeMargin * remaining - moveOverhead))
      let idealTime :=
        min (max idealTime 0) (max minMoveTime (timeMargin * remaining - moveOverhead))
      { idealTimeMs := some idealTime, maxTimeMs := some maxTime,
        rootSingularityTimeMs := some (idealTime * 0.2) }
  match moveTime with
  | none => limits
  | some mt => { limits with idealTimeMs := some mt, maxTimeMs := some mt }

/-- Modelled from the spec: the moves-left estimate exactly as the claim
states it, `movesLeft(moveNo) = midpoint * (1 + 1.5*(moveNo/midpoint)^s)^(1/s)
- moveNo` with `midpoint = 47` and `s = 2.05`. -/
noncomputable def movesLeftClaimedC9 (moves : ℕ) : ℝ :=
  47 * (1 + 1.5 * ((moves : ℝ) / 47) ^ (2.05 : ℝ)) ^ (1 / (2.05 : ℝ)) - (moves : ℝ)

/-! ### Zobrist hashing and Position::DoMove (Position.cpp lines 12-157 and
645-800)

The Zobrist key tables (`s_BlackToMoveHash`, `s_PiecePositionHash`,
`s_CastlingRightsHash`, `s_EnPassantFileHash`, filled once by
`InitZobristHash` from a fixed-seed Mersenne twister) are abstracted as an
arbitrary key assignment: every theorem below holds for every assignment. -/

/-- The Zobrist key tables. -/
structure ZKeys where
  blackToMove : Nat
  piece : Nat → Nat → Nat → Nat
  castling : Nat → Nat → Nat
  epFile : Nat → Nat

/-- `(uint32_t)color`. -/
def colorIdx : ColorE → Nat
  | .white => 0
  | .black => 1

/-- `(uint32_t)piece - 1` (Position.cpp lines 115, 131); for `Piece::None`
the unsigned subtraction wraps to `UINT32_MAX` (never hashed: the asserts
exclude it). -/
def pieceIdx : PieceE → Nat
  | .none => 4294967295
  | .pawn => 0
  | .knight => 1
  | .bishop => 2
  | .rook => 3
  | .queen => 4
  | .king => 5

/-- XOR of `key` over the set bits of a 64-bit board: `Bitboard::Iterate`
(Bitboard.hpp lines 43-53) as used by `ComputeHash`, which extracts bits in
ascending index order. -/
def hashBB (bb : Nat) (key : Nat → Nat) : Nat :=
  (List.range 64).foldl (fun h i => if bb.testBit i then h ^^^ key i else h) 0

/-- The castling-rights / en-passant tail of `Position::ComputeHash`
(Position.cpp lines 62-67), over the five fields it reads. -/
def hashTail (k : ZKeys) (ws wl bs bl : Bool) (ep : Option Nat) (h : Nat) : Nat :=
  let h := if ws then h ^^^ k.castling 0 0 else h
  let h := if wl then h ^^^ k.castling 0 1 else h
  let h := if bs then h ^^^ k.castling 1 0 else h
  let h := if bl then h ^^^ k.castling 1 1 else h
  match ep with
  | some sq => h ^^^ k.epFile (sq % 8)
  | none => h

/-- `Position::ComputeHash` (Position.cpp lines 46-70). -/
def computeHash (k : ZKeys) (p : PositionE) : Nat :=
  let h := if p.sideToMove = ColorE.black then k.blackToMove else 0
  let h := h ^^^ hashBB p.white.pawns (k.piece 0 0)
  let h := h ^^^ hashBB p.white.knights (k.piece 0 1)
  let h := h ^^^ hashBB p.white.bishops (k.piece 0 2)
  let h := h ^^^ hashBB p.white.rooks (k.piece 0 3)
  let h := h ^^^ hashBB p.white.queens (k.piece 0 4)
  let h := h ^^^ hashBB p.white.king (k.piece 0 5)
  let h := h ^^^ hashBB p.black.pawns (k.piece 1 0)
  let h := h ^^^ hashBB p.black.knights (k.piece 1 1)
  let h := h ^^^ hashBB p.black.bishops (k.piece 1 2)
  let h := h ^^^ hashBB p.black.rooks (k.piece 1 3)
  let h := h ^^^ hashBB p.black.queens (k.piece 1 4)
  let h := h ^^^ hashBB p.black.king (k.piece 1 5)
  hashTail k p.whiteShortCastle p.whiteLongCastle p.blackShortCastle p.blackLongCastle
    p.epSquare h

/-- Apply an update to the bitboard of one piece kind
(`SidePosition::GetPieceBitBoard` as an lvalue). -/
def SidePositionE.updateBB (s : SidePositionE) (piece : PieceE) (f : Nat → Nat) :
    SidePositionE :=
  match piece with
  | .none => s
  | .pawn => { s with pawns := f s.pawns }
  | .knight => { s with knights := f s.knights }
  | .bishop => { s with bishops := f s.bishops }
  | .rook => { s with rooks := f s.rooks }
  | .queen => { s with queens := f s.queens }
  | .king => { s with king := f s.king }

/-- Apply an update to one color's `SidePosition` (`mColors[(uint8_t)color]`
as an lvalue). -/
def PositionE.updateSide (p : PositionE) (color : ColorE) (f : SidePositionE → SidePositionE) :
    PositionE :=
  match color with
  | .white => { p with white := f p.white }
  | .black => { p with black := f p.black }

/-- `Position::SetPiece` (Position.cpp lines 102-119). -/
def setPiece (k : ZKeys) (p : PositionE) (sq : Nat) (piece : PieceE) (color : ColorE) :
    PositionE :=
  let mask := squareBB sq
  let p2 := p.updateSide color (fun s => s.updateBB piece (fun bb => bb ||| mask))
  { p2 with hash := p.hash ^^^ k.piece (colorIdx color) (pieceIdx piece) sq }

/-- `Position::RemovePiece` (Position.cpp lines 121-133). -/
def removePiece (k : ZKeys) (p : PositionE) (sq : Nat) (piece : PieceE) (color : ColorE) :
    PositionE :=
  let mask := squareBB sq
  let p2 := p.updateSide color (fun s => s.updateBB piece (fun bb => bb &&& bbNot mask))
  { p2 with hash := p.hash ^^^ k.piece (colorIdx color) (pieceIdx piece) sq }

/-- `Position::SetEnPassantSquare` (Position.cpp lines 135-147); also covers
`ClearEnPassantSquare` via `none`. -/
def setEnPassantSquare (k : ZKeys) (p : PositionE) (sq : Option Nat) : PositionE :=
  let h := p.hash
  let h := match p.epSquare with
    | some old => h ^^^ k.epFile (old % 8)
    | none => h
  let h := match sq with
    | some s => h ^^^ k.epFile (s % 8)
    | none => h
  { p with epSquare := sq, hash := h }

/-- `Position::ClearRookCastlingRights` (Position.cpp lines 645-666);
squares: h1 = 7, a1 = 0, h8 = 63, a8 = 56. -/
def clearRookCastlingRights (k : ZKeys) (p : PositionE) (sq : Nat) : PositionE :=
  if sq = 7 then
    { p with whiteShortCastle := false,
             hash := if p.whiteShortCastle then p.hash ^^^ k.castling 0 0 else p.hash }
  else if sq = 0 then
    { p with whiteLongCastle := false,
             hash := if p.whiteLongCastle then p.hash ^^^ k.castling 0 1 else p.hash }
  else if sq = 63 then
    { p with blackShortCastle := false,
             hash := if p.blackShortCastle then p.hash ^^^ k.castling 1 0 else p.hash }
  else if sq = 56 then
    { p with blackLongCastle := false,
             hash := if p.blackLongCastle then p.hash ^^^ k.castling 1 1 else p.hash }
  else p

/-- The castling-rights clearing on a king move (Position.cpp lines 736-740). -/
def clearCastlingRightsOnKingMove (k : ZKeys) (p : PositionE) : PositionE :=
  match p.sideToMove with
  | .white =>
    let h := if p.whiteShortCastle then p.hash ^^^ k.castling 0 0 else p.hash
    let h := if p.whiteLongCastle then h ^^^ k.castling 0 1 else h
    { p with whiteShortCastle := false, whiteLongCastle := false, hash := h }
  | .black =>
    let h := if p.blackShortCastle then p.hash ^^^ k.castling 1 0 else p.hash
    let h := if p.blackLongCastle then h ^^^ k.castling 1 1 else h
    { p with blackShortCastle := false, blackLongCastle := false, hash := h }

/-- `ExtractEnPassantSquareFromMove` (Position.cpp lines 626-643);
`Square(file, rank)` has index `8*rank + file`. -/
def extractEnPassantSquareFromMove (move : MoveE) : Option Nat :=
  if move.fromSquare / 8 = 1 ∧ move.toSquare / 8 = 3 then
    some (8 * 2 + move.fromSquare % 8)
  else if move.fromSquare / 8 = 6 ∧ move.toSquare / 8 = 4 then
    some (8 * 5 + move.fromSquare % 8)
  else none

/-! `Position::DoMove` (Position.cpp lines 668-775) is translated as a
composition of its successive mutation blocks; each step function below is
one contiguous block of the source, and `doMove` chains them in source
order.  The final legality answer `!IsInCheck(prevToMove)` does not affect
the mutated position and is not modelled. -/

/-- `RemovePiece(move.FromSquare(), move.GetPiece(), mSideToMove)` (line 676). -/
def doMoveRemoveFromStep (k : ZKeys) (q : PositionE) (move : MoveE) : PositionE :=
  removePiece k q move.fromSquare move.piece q.sideToMove

/-- The capture block (lines 678-688): remove the captured piece (except for
en passant) and clear the castling right of a captured rook square. -/
def doMoveCaptureStep (k : ZKeys) (q : PositionE) (move : MoveE) : PositionE :=
  if move.isCapture then
    let q :=
      if !move.isEnPassant then
        removePiece k q move.toSquare (q.opponentSide.getPieceAtSquare move.toSquare)
          q.sideToMove.opposite
      else q
    clearRookCastlingRights k q move.toSquare
  else q

/-- Placing the moved (or promoted) piece (lines 691-692). -/
def doMovePlaceStep (k : ZKeys) (q : PositionE) (move : MoveE) : PositionE :=
  setPiece k q move.toSquare
    (if move.piece = PieceE.pawn ∧ move.promoteTo ≠ PieceE.none then move.promoteTo
     else move.piece) q.sideToMove

/-- Removing the en-passant-captured pawn (lines 694-702). -/
def doMoveEpCaptureStep (k : ZKeys) (q : PositionE) (move : MoveE) : PositionE :=
  if move.isEnPassant then
    if move.toSquare / 8 = 5 then
      removePiece k q (8 * 4 + move.toSquare % 8) PieceE.pawn q.sideToMove.opposite
    else if move.toSquare / 8 = 2 then
      removePiece k q (8 * 3 + move.toSquare % 8) PieceE.pawn q.sideToMove.opposite
    else q
  else q

/-- Updating the en-passant square (line 704). -/
def doMoveEpSquareStep (k : ZKeys) (q : PositionE) (move : MoveE) : PositionE :=
  setEnPassantSquare k q
    (if move.piece = PieceE.pawn then extractEnPassantSquareFromMove move else none)

/-- The king block (lines 706-741): move the castling rook and clear the
mover's castling rights. -/
def doMoveKingStep (k : ZKeys) (q : PositionE) (move : MoveE) : PositionE :=
  if move.piece = PieceE.king then
    let q :=
      if move.isCastling then
        if move.fromSquare % 8 = 4 ∧ move.toSquare % 8 = 6 then
          let q := removePiece k q (8 * (move.fromSquare / 8) + 7) PieceE.rook q.sideToMove
          setPiece k q (8 * (move.fromSquare / 8) + 5) PieceE.rook q.sideToMove
        else if move.fromSquare % 8 = 4 ∧ move.toSquare % 8 = 2 then
          let q := removePiece k q (8 * (move.fromSquare / 8) + 0) PieceE.rook q.sideToMove
          setPiece k q (8 * (move.fromSquare / 8) + 3) PieceE.rook q.sideToMove
        else q
      else q
    clearCastlingRightsOnKingMove k q
  else q

/-- Clearing the castling right after a rook move (lines 744-747). -/
def doMoveRookStep (k : ZKeys) (q : PositionE) (move : MoveE) : PositionE :=
  if move.piece = PieceE.rook then clearRookCastlingRights k q move.fromSquare else q

/-- The move-count / half-move-clock updates (lines 749-761). -/
def doMoveCountersStep (q : PositionE) (move : MoveE) : PositionE :=
  let q := if q.sideToMove = ColorE.black then { q with moveCount := q.moveCount + 1 } else q
  if move.piece = PieceE.pawn ∨ move.isCapture = true then { q with halfMoveCount := 0 }
  else { q with halfMoveCount := q.halfMoveCount + 1 }

/-- The side-to-move flip with its hash update (lines 765-766). -/
def doMoveFlipStep (k : ZKeys) (q : PositionE) : PositionE :=
  { q with sideToMove := q.sideToMove.opposite, hash := q.hash ^^^ k.blackToMove }

/-- The board mutation of `Position::DoMove` (Position.cpp lines 668-775). -/
def doMove (k : ZKeys) (p : PositionE) (move : MoveE) : PositionE :=
  doMoveFlipStep k
    (doMoveCountersStep
      (doMoveRookStep k
        (doMoveKingStep k
          (doMoveEpSquareStep k
            (doMoveEpCaptureStep k
              (doMovePlaceStep k
                (doMoveCaptureStep k
                  (doMoveRemoveFromStep k p move) move) move) move) move) move) move) move)

/-- `Position::DoNullMove` (Position.cpp lines 777-800), board mutation. -/
def doNullMove (k : ZKeys) (p : PositionE) : PositionE :=
  let p := setEnPassantSquare k p none
  let p := if p.sideToMove = ColorE.black then { p with moveCount := p.moveCount + 1 } else p
  let p := { p with halfMoveCount := p.halfMoveCount + 1 }
  doMoveFlipStep k p

/-! ### Decomposing `ComputeHash` into an XOR of independent contributions -/

/-- The en-passant contribution to the hash. -/
def epContrib (k : ZKeys) (ep : Option Nat) : Nat :=
  match ep with
  | some sq => k.epFile (sq % 8)
  | none => 0

/-- The incremental-hash invariant: the maintained `mHash` field equals the
from-scratch `ComputeHash()` of the position. -/
def hashConsistent (k : ZKeys) (p : PositionE) : Prop :=
  p.hash = computeHash k p

/-- The preconditions of `Position::DoMove`, i.e. the `ASSERT`s guarding each
primitive mutation along the executed path (debug-mode contracts, spec
section 7): the moving piece stands on the from-square; a non-en-passant
capture finds an opponent piece on the to-square; the to-square is free for
the mover after the removals; the en-passant victim pawn is present; the
castling rook stands on its origin square and its target square is free.
Each condition is stated on the intermediate position at which the
corresponding source assert runs. -/
def doMovePre (k : ZKeys) (p : PositionE) (move : MoveE) : Prop :=
  move.piece ≠ PieceE.none ∧
  ((p.side p.sideToMove).pieceBB move.piece).testBit move.fromSquare = true ∧
  (let q1 := doMoveRemoveFromStep k p move
   (move.isCapture = true → move.isEnPassant = false →
     q1.opponentSide.getPieceAtSquare move.toSquare ≠ PieceE.none) ∧
   (let q2 := doMoveCaptureStep k q1 move
    (q2.side q2.sideToMove).occupied &&& squareBB move.toSquare = 0 ∧
    (let q3 := doMovePlaceStep k q2 move
     (move.isEnPassant = true → move.toSquare / 8 = 5 →
       ((q3.side q3.sideToMove.opposite).pieceBB PieceE.pawn).testBit
         (8 * 4 + move.toSquare % 8) = true) ∧
     (move.isEnPassant = true → move.toSquare / 8 = 2 →
       ((q3.side q3.sideToMove.opposite).pieceBB PieceE.pawn).testBit
         (8 * 3 + move.toSquare % 8) = true) ∧
     (let q5 := doMoveEpSquareStep k (doMoveEpCaptureStep k q3 move) move
      (move.piece = PieceE.king → move.isCastling = true →
        move.fromSquare % 8 = 4 ∧ move.toSquare % 8 = 6 →
        ((q5.side q5.sideToMove).pieceBB PieceE.rook).testBit
          (8 * (move.fromSquare / 8) + 7) = true ∧
        (((removePiece k q5 (8 * (move.fromSquare / 8) + 7) PieceE.rook q5.sideToMove).side
          (removePiece k q5 (8 * (move.fromSquare / 8) + 7) PieceE.rook
            q5.sideToMove).sideToMove).occupied &&&
          squareBB (8 * (move.fromSquare / 8) + 5)) = 0) ∧
      (move.piece = PieceE.king → move.isCastling = true →
        ¬(move.fromSquare % 8 = 4 ∧ move.toSquare % 8 = 6) →
        move.fromSquare % 8 = 4 ∧ move.toSquare % 8 = 2 →
        ((q5.side q5.sideToMove).pieceBB PieceE.rook).testBit
          (8 * (move.fromSquare / 8) + 0) = true ∧
        (((removePiece k q5 (8 * (move.fromSquare / 8) + 0) PieceE.rook q5.sideToMove).side
          (removePiece k q5 (8 * (move.fromSquare / 8) + 0) PieceE.rook
            q5.sideToMove).sideToMove).occupied &&&
          squareBB (8 * (move.fromSquare / 8) + 3)) = 0)))))

/-- A concrete key assignment for the witness. -/
def zkeysW : ZKeys :=
  { blackToMove := 12345
    piece := fun c pi sq => 2 * c + 3 * pi + 5 * sq + 11
    castling := fun a b => 131 * a + 1717 * b + 777
    epFile := fun f => 271 * f + 31337 }

/-- A castling-ready position for the witness: white Ke1, Ra1, Rh1 against
black Ke8, Ra8, Rh8, white to move, all castling rights. -/
def posCastleW : PositionE :=
  { white := { pawns := 0, knights := 0, bishops := 0, rooks := 0x81, queens := 0,
               king := 0x10 }
    black := { pawns := 0, knights := 0, bishops := 0, rooks := 0x8100000000000000,
               queens := 0, king := 0x1000000000000000 }
    sideToMove := .white
    epSquare := none
    whiteShortCastle := true, whiteLongCastle := true
    blackShortCastle := true, blackLongCastle := true
    halfMoveCount := 0, moveCount := 1, hash := 0 }

/-- `posCastleW` with its hash field initialized from scratch. -/
def posCastleWH : PositionE :=
  { posCastleW with hash := computeHash zkeysW posCastleW }

/-- White short castling e1g1 for the witness. -/
def mvCastleW : MoveE := makeMove 4 6 .king .none false false true

/-! ## Theorems -/

theorem listGetD_set_eq {α : Type} (l : List α) (i : Nat) (x d : α)
    (h : i < l.length) : listGetD (l.set i x) i d = x := by
  induction l generalizing i with
  | nil => simp at h
  | cons y ys ih =>
    cases i with
    | zero => rfl
    | succ n => exact ih n (by simpa using h)

theorem listGetD_set_ne {α : Type} (l : List α) (i j : Nat) (x d : α)
    (h : j ≠ i) : listGetD (l.set i x) j d = listGetD l j d := by
  induction l generalizing i j with
  | nil => rfl
  | cons y ys ih =>
    cases i with
    | zero =>
      cases j with
      | zero => exact absurd rfl h
      | succ m => rfl
    | succ n =>
      cases j with
      | zero => rfl
      | succ m => exact ih n m (fun hc => h (by simpa using hc))

theorem ttWrite_length (entries : List TTEntryE) (entry : TTEntryE) :
    (ttWrite entries entry).length = entries.length := by
  unfold ttWrite
  split
  · rfl
  · dsimp only
    split
    · rfl
    · exact List.length_set ..

/-- C1: writing a valid entry into a non-empty table keeps the slot
`entry.positionHash &&& (size-1)` unchanged exactly when the slot already holds
the same position hash with strictly higher depth and equal bound flag; in
every other case (including a different hash in the slot) the incoming entry
overwrites the slot.  All other slots are untouched. -/
theorem ttWrite_replacement_policy (entries : List TTEntryE) (entry : TTEntryE)
    (hne : 0 < entries.length) (_hvalid : entry.isValid = true) :
    (listGetD (ttWrite entries entry) (entry.positionHash &&& (entries.length - 1)) default =
      (if (listGetD entries (entry.positionHash &&& (entries.length - 1)) default).positionHash
            = entry.positionHash ∧
          (listGetD entries (entry.positionHash &&& (entries.length - 1)) default).depth
            > entry.depth ∧
          (listGetD entries (entry.positionHash &&& (entries.length - 1)) default).flag
            = entry.flag
        then listGetD entries (entry.positionHash &&& (entries.length - 1)) default
        else entry)) ∧
    ∀ j, j ≠ entry.positionHash &&& (entries.length - 1) →
      listGetD (ttWrite entries entry) j default = listGetD entries j default := by
  have hidx : entry.positionHash &&& (entries.length - 1) < entries.length :=
    Nat.lt_of_le_of_lt Nat.and_le_right (Nat.sub_lt hne Nat.one_pos)
  unfold ttWrite
  rw [if_neg (Nat.pos_iff_ne_zero.mp hne)]
  dsimp only
  constructor
  · split
    · rfl
    · exact listGetD_set_eq _ _ _ _ hidx
  · intro j hj
    split
    · rfl
    · exact listGetD_set_ne _ _ _ _ _ hj

/-- Witness for C1 at a concrete table and entry: a lower-depth same-flag
re-insert of hash 5 keeps the existing depth-7 entry. -/
theorem ttWrite_replacement_policy_witness :
    0 < ([⟨9, 1, 1, 2, TTFlag.lowerBound, 0⟩, ⟨5, 10, 3, 7, TTFlag.exact, 0⟩] :
        List TTEntryE).length ∧
    TTEntryE.isValid ⟨5, 20, 4, 4, TTFlag.exact, 1⟩ = true ∧
    listGetD (ttWrite [⟨9, 1, 1, 2, TTFlag.lowerBound, 0⟩, ⟨5, 10, 3, 7, TTFlag.exact, 0⟩]
        ⟨5, 20, 4, 4, TTFlag.exact, 1⟩) 1 default = ⟨5, 10, 3, 7, TTFlag.exact, 0⟩ := by
  refine ⟨by decide, by decide, ?_⟩
  have h := ttWrite_replacement_policy
    [⟨9, 1, 1, 2, TTFlag.lowerBound, 0⟩, ⟨5, 10, 3, 7, TTFlag.exact, 0⟩]
    ⟨5, 20, 4, 4, TTFlag.exact, 1⟩ (by decide) (by decide)
  exact h.1.trans (by decide)

/-! ### Threshold antitonicity of the exchange loop -/

theorem seeTail_antitone (v b1 b2 δ : Int) (r : Bool) (cont : Int → Bool → Bool)
    (ht : r = true → b1 = b2 + δ) (hf : r = false → b2 = b1 + δ) (hδ : 0 ≤ δ)
    (hcont : ∀ c1 c2, (r = true → c2 = c1 + δ) → (r = false → c1 = c2 + δ) →
      cont c2 r = true → cont c1 r = true)
    (h : seeTail v b2 r cont = true) :
    seeTail v b1 r cont = true := by
  unfold seeTail at h ⊢
  cases r with
  | false =>
    have hb : b2 = b1 + δ := hf rfl
    simp only [Bool.false_eq_true, if_false] at h ⊢
    by_cases h2 : v - b2 < 0
    · rw [if_pos h2] at h
      exact absurd h (by simp)
    · rw [if_neg h2] at h
      have h1 : ¬(v - b1 < 0) := by omega
      rw [if_neg h1]
      exact hcont (v - b1) (v - b2) (by simp) (fun _ => by omega) h
  | true =>
    have hb : b1 = b2 + δ := ht rfl
    simp only [if_true] at h ⊢
    by_cases h1 : v - b1 < 1
    · rw [if_pos h1]
    · rw [if_neg h1]
      have h2 : ¬(v - b2 < 1) := by omega
      rw [if_neg h2] at h
      exact hcont (v - b1) (v - b2) (fun _ => by omega) (by simp) h

theorem seeLoopWith_antitone (qv : Int) (p : PositionE) (toSq : Nat) :
    ∀ (fuel : Nat) (occ att : Nat) (stm : ColorE) (b1 b2 δ : Int) (r : Bool),
      0 ≤ δ → (r = true → b2 = b1 + δ) → (r = false → b1 = b2 + δ) →
      seeLoopWith qv p toSq fuel occ att stm b2 r = true →
      seeLoopWith qv p toSq fuel occ att stm b1 r = true := by
  intro fuel
  induction fuel with
  | zero =>
    intro occ att stm b1 b2 δ r hδ ht hf h
    simpa only [seeLoopWith] using h
  | succ n ih =>
    intro occ att stm b1 b2 δ r hδ ht hf h
    simp only [seeLoopWith] at h ⊢
    by_cases h0 : (att &&& occ) &&& (p.side stm.opposite).occupied = 0
    · rw [if_pos h0] at h ⊢
      exact h
    · rw [if_neg h0] at h ⊢
      have hflip : ((!r) = true → b1 = b2 + δ) ∧ ((!r) = false → b2 = b1 + δ) := by
        cases r with
        | false => exact ⟨fun _ => hf rfl, by simp⟩
        | true => exact ⟨by simp, fun _ => ht rfl⟩
      have hcont : ∀ occ2 att2, ∀ c1 c2 : Int, ((!r) = true → c2 = c1 + δ) →
          ((!r) = false → c1 = c2 + δ) →
          seeLoopWith qv p toSq n occ2 att2 stm.opposite c2 (!r) = true →
          seeLoopWith qv p toSq n occ2 att2 stm.opposite c1 (!r) = true := by
        intro occ2 att2 c1 c2 hc2 hc1 hh
        cases r with
        | false =>
          exact ih occ2 att2 stm.opposite c1 c2 δ true hδ (fun _ => hc2 rfl) (by simp) hh
        | true =>
          exact ih occ2 att2 stm.opposite c1 c2 δ false hδ (by simp) (fun _ => hc1 rfl) hh
      split at h
      · rename_i hc1
        rw [if_pos hc1]
        exact seeTail_antitone _ b1 b2 δ _ _ hflip.1 hflip.2 hδ (hcont _ _) h
      · rename_i hc1
        rw [if_neg hc1]
        split at h
        · rename_i hc2
          rw [if_pos hc2]
          exact seeTail_antitone _ b1 b2 δ _ _ hflip.1 hflip.2 hδ (hcont _ _) h
        · rename_i hc2
          rw [if_neg hc2]
          split at h
          · rename_i hc3
            rw [if_pos hc3]
            exact seeTail_antitone _ b1 b2 δ _ _ hflip.1 hflip.2 hδ (hcont _ _) h
          · rename_i hc3
            rw [if_neg hc3]
            split at h
            · rename_i hc4
              rw [if_pos hc4]
              exact seeTail_antitone _ b1 b2 δ _ _ hflip.1 hflip.2 hδ (hcont _ _) h
            · rename_i hc4
              rw [if_neg hc4]
              split at h
              · rename_i hc5
                rw [if_pos hc5]
                exact seeTail_antitone _ b1 b2 δ _ _ hflip.1 hflip.2 hδ (hcont _ _) h
              · rename_i hc5
                rw [if_neg hc5]
                exact h

/-- C2: at the concrete capture Nc3xd5 of `posSeeQueen` with threshold 0 the
source's exchange evaluation answers `true`, while the same algorithm with the
spec's piece value table (queen attackers worth 900, not `rookValue` = 500)
answers `false`: the queen-attacker branch of Position.cpp (line 1225) adds
`rookValue` instead of `queenValue`, contradicting both the spec's value table
and the function's own `c_seePieceValues`. -/
theorem see_queen_branch_failing_input :
    staticExchangeEvaluation posSeeQueen mvSeeQueen 0 = true ∧
    staticExchangeEvaluationSpecValues posSeeQueen mvSeeQueen 0 = false := by
  constructor
  · rfl
  · rfl

/-- C5 counterexample: the claimed direction of monotonicity is false.  For
the capture Rd1xd5 of an undefended pawn, thresholds 1 < 150 (both positive),
the evaluation is `true` at the lower threshold and `false` at the higher. -/
theorem see_not_monotone_increasing :
    (0 : Int) < 1 ∧ (0 : Int) < 150 ∧ (1 : Int) < 150 ∧
    staticExchangeEvaluation posSeePawn mvSeePawn 1 = true ∧
    staticExchangeEvaluation posSeePawn mvSeePawn 150 = false := by
  refine ⟨by decide, by decide, by decide, ?_, ?_⟩
  · rfl
  · rfl

/-- C5 (amended): `StaticExchangeEvaluation` is antitone in its threshold:
for thresholds `t1 ≤ t2`, a `true` answer at the higher threshold implies a
`true` answer at the lower one. -/
theorem see_threshold_antitone (p : PositionE) (move : MoveE) (t1 t2 : Int)
    (h12 : t1 ≤ t2) (h : staticExchangeEvaluation p move t2 = true) :
    staticExchangeEvaluation p move t1 = true := by
  unfold staticExchangeEvaluation staticExchangeEvaluationWith at h ⊢
  dsimp only at h ⊢
  set captured := seePieceValue (p.opponentSide.getPieceAtSquare move.toSquare) with hcap
  set moved := seePieceValue (p.currentSide.getPieceAtSquare move.fromSquare) with hmov
  by_cases hb2 : captured - t2 < 0
  · rw [if_pos hb2] at h
    exact absurd h (by simp)
  · rw [if_neg hb2] at h
    by_cases hb1 : captured - t1 < 0
    · omega
    · rw [if_neg hb1]
      by_cases hm1 : moved - (captured - t1) ≤ 0
      · rw [if_pos hm1]
      · rw [if_neg hm1]
        by_cases hm2 : moved - (captured - t2) ≤ 0
        · omega
        · rw [if_neg hm2] at h
          exact seeLoopWith_antitone rookValueE p move.toSquare 65 _ _ _
            (moved - (captured - t1)) (moved - (captured - t2)) (t2 - t1) true
            (by omega) (fun _ => by ring) (by simp) h

/-- Witness for C5's amended theorem: from `SEE(move, 1) = true` on the
undefended-pawn capture we conclude `SEE(move, 0) = true`. -/
theorem see_threshold_antitone_witness :
    (0 : Int) ≤ 1 ∧ staticExchangeEvaluation posSeePawn mvSeePawn 1 = true ∧
    staticExchangeEvaluation posSeePawn mvSeePawn 0 = true :=
  ⟨by decide, rfl, see_threshold_antitone posSeePawn mvSeePawn 0 1 (by decide) rfl⟩

theorem listGetD_mem {α : Type} (l : List α) (i : Nat) (d : α) (h : i < l.length) :
    listGetD l i d ∈ l := by
  induction l generalizing i with
  | nil => simp at h
  | cons x xs ih =>
    cases i with
    | zero => exact List.mem_cons_self ..
    | succ n => exact List.mem_cons_of_mem _ (ih n (by simpa using h))

/-- C4 counterexample: with the valid window `[-32000, -31995]` at height 10,
mate-distance pruning short-circuits and returns `-31990`, which is strictly
above the original beta bound, hence outside `[alpha, beta]`. -/
theorem mateDistancePrune_outside_window :
    (-32000 : Int) < -31995 ∧
    mateDistancePrune (-32000) (-31995) 10 = some (-31990) ∧
    ¬((-31990 : Int) ≤ -31995) := by
  refine ⟨by decide, ?_, by decide⟩
  decide

/-- C4 (amended): whenever mate-distance pruning short-circuits on a valid
window, the returned score is never below alpha, and it lies inside the
original window `[alpha, beta]` whenever `beta ≥ -CHECKMATE + height`
(the counterexample shows the bound can be exceeded when the whole window
lies below the mated-at-height score). -/
theorem mateDistancePrune_score_bounds (alpha beta r : Int) (height : Nat)
    (hab : alpha < beta) (h : mateDistancePrune alpha beta height = some r) :
    alpha ≤ r ∧ (-checkmateValue + height ≤ beta → r ≤ beta) := by
  unfold mateDistancePrune at h
  dsimp only at h
  split at h
  · rename_i hcond
    have hr : max (-checkmateValue + (height : Int)) alpha = r := by
      injection h
    constructor
    · omega
    · intro hbeta
      omega
  · exact absurd h (by simp)

/-- Witness for C4's amended theorem at window `[31990, 31993]`, height 10. -/
theorem mateDistancePrune_score_bounds_witness :
    (31990 : Int) < 31993 ∧
    mateDistancePrune 31990 31993 10 = some 31990 ∧
    ((31990 : Int) ≤ 31990 ∧ (-checkmateValue + (10 : Nat) ≤ 31993 → (31990 : Int) ≤ 31993)) :=
  ⟨by decide, by decide,
    mateDistancePrune_score_bounds 31990 31993 31990 10 (by decide) (by decide)⟩

/-- C7: after a fail-low iteration (`score ≤ alpha`) the aspiration window
update reports the score clamped to alpha, sets the new beta to
`(alpha + beta + 1) / 2` (truncating division), widens the window to
`2*w + 5` — replaced by the full checkmate width once it exceeds
`AspirationWindowMaxSize = 500` — sets the new alpha to the clamped score
minus the widened window, never below `-CHECKMATE`, keeps the depth, reports
an upper bound, and (absent a stop request) the search loop repeats. -/
theorem aspiration_fail_low (alpha beta window score : Int) (depth paramDepth : Nat)
    (hfail : score ≤ alpha) :
    aspirationWindowStep alpha beta window score depth paramDepth =
      (alpha,
       max (alpha - (if 2 * window + 5 > aspirationWindowMaxSize then checkmateValue
          else 2 * window + 5)) (-checkmateValue),
       (alpha + beta + 1).tdiv 2,
       (if 2 * window + 5 > aspirationWindowMaxSize then checkmateValue else 2 * window + 5),
       BoundsTypeE.upperBound,
       depth) ∧
    aspirationWindowMaxSize = 500 ∧ checkmateValue = 32000 ∧
    aspirationLoopBreaks BoundsTypeE.upperBound false = false := by
  refine ⟨?_, rfl, rfl, rfl⟩
  unfold aspirationWindowStep
  dsimp only
  rw [if_pos hfail]

/-- Witness for C7 at `alpha = 50`, `beta = 80`, `window = 40`, `score = 30`. -/
theorem aspiration_fail_low_witness :
    (30 : Int) ≤ 50 ∧
    aspirationWindowStep 50 80 40 30 7 7 = (50, -35, 65, 85, BoundsTypeE.upperBound, 7) ∧
    aspirationLoopBreaks BoundsTypeE.upperBound false = false := by
  refine ⟨by decide, ?_, by decide⟩
  have h := aspiration_fail_low 50 80 40 30 7 7 (by decide)
  rw [h.1]
  decide

/-- C3: when the move loop of `NegaMax` was not aborted, found no legal move
and no move was excluded by the filter, the node returns
`-CHECKMATE + height` when in check and `0` otherwise, and the transposition
table slot of the position afterwards holds an exact-bound entry at sentinel
depth `INT8_MAX` whose stored score rebias-reads back as exactly that
returned score. -/
theorem negamax_no_legal_moves (isInCheck : Bool) (height : Nat) (hash : Nat)
    (tt : List TTEntryE) (hne : 0 < tt.length)
    (hdepth : tt.all (fun e => e.depth ≤ int8Max) = true) :
    (negamaxNoLegalMovesEpilogue isInCheck height false hash tt).1 =
      (if isInCheck then -checkmateValue + height else 0) ∧
    listGetD (negamaxNoLegalMovesEpilogue isInCheck height false hash tt).2
        (hash &&& (tt.length - 1)) default =
      { positionHash := hash,
        score := scoreToTT (if isInCheck then -checkmateValue + height else 0) height,
        staticEval := (if isInCheck then -checkmateValue + height else 0),
        depth := int8Max, flag := TTFlag.exact, bestMove := 0 } ∧
    scoreFromTT (scoreToTT (if isInCheck then -checkmateValue + height else 0) height) height =
      (if isInCheck then -checkmateValue + height else 0) := by
  have hidx : hash &&& (tt.length - 1) < tt.length :=
    Nat.lt_of_le_of_lt Nat.and_le_right (Nat.sub_lt hne Nat.one_pos)
  have hdepth2 : (listGetD tt (hash &&& (tt.length - 1)) default).depth ≤ int8Max := by
    have hmem := listGetD_mem tt (hash &&& (tt.length - 1)) default hidx
    exact of_decide_eq_true ((List.all_eq_true.mp hdepth) _ hmem)
  refine ⟨rfl, ?_, ?_⟩
  · unfold negamaxNoLegalMovesEpilogue
    rw [if_neg (by simp)]
    dsimp only
    unfold ttWrite
    rw [if_neg (Nat.pos_iff_ne_zero.mp hne)]
    dsimp only
    rw [if_neg (by
      intro hkeep
      exact absurd hkeep.2.1 (by simp only [not_lt]; exact hdepth2))]
    exact listGetD_set_eq _ _ _ _ hidx
  · unfold scoreToTT scoreFromTT knownWinValue checkmateValue
    split <;> split <;> split <;> omega

/-- Witness for C3: a mated-in-3 node over a two-slot table. -/
theorem negamax_no_legal_moves_witness :
    0 < ([default, default] : List TTEntryE).length ∧
    ([default, default] : List TTEntryE).all (fun e => e.depth ≤ int8Max) = true ∧
    (negamaxNoLegalMovesEpilogue true 3 false 5 [default, default]).1 = -32000 + 3 ∧
    listGetD (negamaxNoLegalMovesEpilogue true 3 false 5 [default, default]).2 1 default =
      { positionHash := 5, score := -32000, staticEval := -31997,
        depth := 127, flag := TTFlag.exact, bestMove := 0 } := by
  refine ⟨by decide, by decide, ?_, ?_⟩
  · have h := negamax_no_legal_moves true 3 5 [default, default] (by decide) (by decide)
    rw [h.1]
    decide
  · have h := negamax_no_legal_moves true 3 5 [default, default] (by decide) (by decide)
    have h2 := h.2.1
    have h3 : (5 &&& (([default, default] : List TTEntryE).length - 1)) = 1 := by decide
    rw [h3] at h2
    rw [h2]
    decide

theorem listGetD_halve (l : List NodeCacheMoveInfo) (j : Nat) :
    (listGetD (l.map (fun mi : NodeCacheMoveInfo =>
      { mi with nodesSearched := mi.nodesSearched / 2 })) j
      default).nodesSearched = (listGetD l j default).nodesSearched / 2 := by
  induction l generalizing j with
  | nil => show (0 : Nat) = 0 / 2; simp
  | cons x xs ih =>
    cases j with
    | zero => rfl
    | succ n => exact ih n

theorem amsScan_found_index (move : MoveE) (numNodes : Nat) :
    ∀ (l : List NodeCacheMoveInfo) (k mn mi i mn2 mi2 : Nat),
      amsScan move numNodes l k mn mi = (some i, mn2, mi2) → k ≤ i ∧ i < k + l.length := by
  intro l
  induction l with
  | nil =>
    intro k mn mi i mn2 mi2 h
    exact absurd h (by simp [amsScan])
  | cons x xs ih =>
    intro k mn mi i mn2 mi2 h
    rw [amsScan] at h
    split at h
    · have h1 : (some k : Option Nat) = some i := congrArg Prod.fst h
      obtain rfl : k = i := Option.some.inj h1
      exact ⟨Nat.le_refl _, by simp⟩
    · split at h
      · obtain ⟨hk, hl⟩ := ih (k + 1) x.nodesSearched k i mn2 mi2 h
        exact ⟨by omega, by simp only [List.length_cons]; omega⟩
      · obtain ⟨hk, hl⟩ := ih (k + 1) mn mi i mn2 mi2 h
        exact ⟨by omega, by simp only [List.length_cons]; omega⟩

/-- C6: for a valid position with exactly one legal move, analysis mode off
and a valid time limit (and at least one PV line requested), `DoSearch`
returns immediately — before the tablebase probe and the
iterative-deepening loop — with a single PV line holding exactly that legal
move and score 0. -/
theorem doSearch_single_legal_move (m : MoveE) (numPvLinesParam : Nat)
    (hpv : 1 ≤ numPvLinesParam) :
    doSearchEarly true [m] numPvLinesParam false true =
      DoSearchEarlyOutcome.immediate [{ moves := [m], score := 0 }] := by
  unfold doSearchEarly
  rw [if_neg (by simp)]
  dsimp only [List.length_cons, List.length_nil]
  have hmin : min numPvLinesParam 1 = 1 := by omega
  rw [hmin, if_neg (by omega), if_pos (by simp)]
  rfl

/-- Witness for C6 at a concrete move value. -/
theorem doSearch_single_legal_move_witness :
    1 ≤ 1 ∧
    doSearchEarly true [⟨100⟩] 1 false true =
      DoSearchEarlyOutcome.immediate [{ moves := [⟨100⟩], score := 0 }] :=
  ⟨by decide, doSearch_single_legal_move ⟨100⟩ 1 (by decide)⟩

/-- C8 counterexample: inserting a new move with `2^63` nodes into an empty
entry goes through the replacement path of `AddMoveStats`, leaving a stored
move whose 64-bit counter has the top bit set while no count was halved
(had `ScaleDown` run, every counter would be at most `2^62`). -/
theorem nodeCache_top_bit_not_halved :
    Nat.testBit
      ((listGetD (addMoveStats emptyNodeCacheEntry ⟨100⟩ (2 ^ 63)).moves 63
        default).nodesSearched) 63 = true ∧
    (listGetD (addMoveStats emptyNodeCacheEntry ⟨100⟩ (2 ^ 63)).moves 63
      default).nodesSearched = 2 ^ 63 := by
  constructor
  · decide
  · decide

/-- C8 (amended): when `AddMoveStats` accumulates into an existing move and
the updated 64-bit counter reaches `UINT64_MAX / MaxMoves`, the entry is
scaled down: the updated counter and every other stored counter are halved,
and the node sum is recomputed as the (wrapping) sum of the halved
counters. -/
theorem addMoveStats_scales_down (e : NodeCacheEntryE) (move : MoveE)
    (numNodes i mn mi : Nat)
    (hscan : amsScan move numNodes e.moves 0 (2 ^ 64 - 1) (2 ^ 32 - 1) = (some i, mn, mi))
    (hsat : ((listGetD e.moves i default).nodesSearched + numNodes) % 2 ^ 64 ≥
      (2 ^ 64 - 1) / nodeCacheMaxMoves) :
    (listGetD (addMoveStats e move numNodes).moves i default).nodesSearched =
      ((listGetD e.moves i default).nodesSearched + numNodes) % 2 ^ 64 / 2 ∧
    (∀ j, j ≠ i → (listGetD (addMoveStats e move numNodes).moves j default).nodesSearched =
      (listGetD e.moves j default).nodesSearched / 2) ∧
    (addMoveStats e move numNodes).nodesSum =
      nodeCacheSum (addMoveStats e move numNodes).moves := by
  have hi : i < e.moves.length := by
    have := (amsScan_found_index move numNodes e.moves 0 (2 ^ 64 - 1) (2 ^ 32 - 1) i mn mi
      hscan).2
    omega
  unfold addMoveStats
  rw [hscan]
  dsimp only
  rw [if_pos hsat]
  unfold scaleDown
  dsimp only
  refine ⟨?_, ?_, rfl⟩
  · rw [listGetD_halve, listGetD_set_eq _ _ _ _ hi]
  · intro j hj
    rw [listGetD_halve, listGetD_set_ne _ _ _ _ _ hj]

/-- Witness for C8's amended theorem: a two-slot entry whose first slot is at
the saturation threshold is scaled down by a zero-node accumulation. -/
theorem addMoveStats_scales_down_witness :
    amsScan ⟨100⟩ 0 [⟨⟨100⟩, (2 ^ 64 - 1) / 64, false⟩, default] 0 (2 ^ 64 - 1) (2 ^ 32 - 1) =
      (some 0, 2 ^ 64 - 1, 2 ^ 32 - 1) ∧
    ((listGetD ([⟨⟨100⟩, (2 ^ 64 - 1) / 64, false⟩, default] :
        List NodeCacheMoveInfo) 0 default).nodesSearched + 0) % 2 ^ 64 ≥
      (2 ^ 64 - 1) / nodeCacheMaxMoves ∧
    (listGetD (addMoveStats ⟨[⟨⟨100⟩, (2 ^ 64 - 1) / 64, false⟩, default], 5⟩ ⟨100⟩ 0).moves
      0 default).nodesSearched =
      ((listGetD ([⟨⟨100⟩, (2 ^ 64 - 1) / 64, false⟩, default] :
        List NodeCacheMoveInfo) 0 default).nodesSearched + 0) % 2 ^ 64 / 2 := by
  refine ⟨by decide, by decide, ?_⟩
  exact (addMoveStats_scales_down ⟨[⟨⟨100⟩, (2 ^ 64 - 1) / 64, false⟩, default], 5⟩ ⟨100⟩ 0
    0 (2 ^ 64 - 1) (2 ^ 32 - 1) (by decide) (by decide)).1

/-- C9 counterexample: the claimed constants are not the code's.  At move
number 0 the code's estimator yields its midpoint 41, while the claimed
formula (midpoint 47, s = 2.05) yields 47. -/
theorem movesLeft_constants_differ :
    estimateMovesLeft 0 = 41 ∧ movesLeftClaimedC9 0 = 47 ∧ (41 : ℝ) ≠ 47 := by
  refine ⟨?_, ?_, by norm_num⟩
  · unfold estimateMovesLeft tmMovesLeftMidpoint tmMovesLeftSteepness
    dsimp only
    rw [Nat.cast_zero, zero_div, Real.zero_rpow (by norm_num), mul_zero, add_zero,
      Real.one_rpow, mul_one, sub_zero]
  · unfold movesLeftClaimedC9
    rw [Nat.cast_zero, zero_div, Real.zero_rpow (by norm_num), mul_zero, add_zero,
      Real.one_rpow, mul_one, sub_zero]

/-- C9 (amended): with a known remaining time, no moves-to-go and no fixed
move time, `InitTimeManager` estimates `movesLeft(moveNo) = midpoint * (1 +
1.5*(moveNo/midpoint)^s)^(1/s) - moveNo` with midpoint 41 and s = 2.13, sets
`idealTime = 0.830 * (remaining / movesLeft + increment)` and `maxTime =
(remaining - overhead) / sqrt(movesLeft) + increment`, clamps both into
`[0, max(1e-5, 0.5*remaining - overhead)]`, and sets `rootSingularityTime =
0.2 * idealTime` (of the clamped ideal time). -/
theorem initTimeManager_formulas (remaining timeIncrement moveOverhead : ℝ)
    (moveCount : ℕ) (limits0 : SearchLimitsE) :
    initTimeManager (some remaining) timeIncrement none moveCount moveOverhead none limits0 =
      { idealTimeMs := some (min (max ((830 / 1000 : ℝ) *
          (remaining / (41 * (1 + 1.5 * ((moveCount : ℝ) / 41) ^ ((213 : ℝ) / 100)) ^
            (1 / ((213 : ℝ) / 100)) - (moveCount : ℝ)) + timeIncrement)) 0)
          (max 0.00001 (0.5 * remaining - moveOverhead))),
        maxTimeMs := some (min (max ((remaining - moveOverhead) /
          Real.sqrt (41 * (1 + 1.5 * ((moveCount : ℝ) / 41) ^ ((213 : ℝ) / 100)) ^
            (1 / ((213 : ℝ) / 100)) - (moveCount : ℝ)) + timeIncrement) 0)
          (max 0.00001 (0.5 * remaining - moveOverhead))),
        rootSingularityTimeMs := some ((min (max ((830 / 1000 : ℝ) *
          (remaining / (41 * (1 + 1.5 * ((moveCount : ℝ) / 41) ^ ((213 : ℝ) / 100)) ^
            (1 / ((213 : ℝ) / 100)) - (moveCount : ℝ)) + timeIncrement)) 0)
          (max 0.00001 (0.5 * remaining - moveOverhead))) * 0.2) } := by
  unfold initTimeManager estimateMovesLeft tmMovesLeftMidpoint tmMovesLeftSteepness
    tmIdealTimeFactor
  rfl

/-! ### Toggling one bit toggles one key in the board hash -/

theorem natXor_left_comm (a b c : Nat) : a ^^^ (b ^^^ c) = b ^^^ (a ^^^ c) := by
  rw [← Nat.xor_assoc, Nat.xor_comm a b, Nat.xor_assoc]

theorem testBit_toggle_self (bb sq : Nat) :
    (bb ^^^ (1 <<< sq)).testBit sq = !bb.testBit sq := by
  rw [Nat.testBit_xor, Nat.one_shiftLeft, Nat.testBit_two_pow]
  simp

theorem testBit_toggle_ne (bb sq i : Nat) (h : i ≠ sq) :
    (bb ^^^ (1 <<< sq)).testBit i = bb.testBit i := by
  rw [Nat.testBit_xor, Nat.one_shiftLeft, Nat.testBit_two_pow]
  have hne : sq ≠ i := fun hc => h hc.symm
  simp [hne]

theorem foldl_hash_acc (bb : Nat) (key : Nat → Nat) (l : List Nat) (acc x : Nat) :
    l.foldl (fun h i => if bb.testBit i then h ^^^ key i else h) (acc ^^^ x) =
      l.foldl (fun h i => if bb.testBit i then h ^^^ key i else h) acc ^^^ x := by
  induction l generalizing acc with
  | nil => rfl
  | cons a t ih =>
    simp only [List.foldl_cons]
    by_cases hb : bb.testBit a
    · rw [if_pos hb, if_pos hb, Nat.xor_assoc, Nat.xor_comm x, ← Nat.xor_assoc, ih]
    · rw [if_neg hb, if_neg hb, ih]

theorem foldl_hash_congr (bb1 bb2 : Nat) (key : Nat → Nat) (l : List Nat) (acc : Nat)
    (hagree : ∀ i ∈ l, bb1.testBit i = bb2.testBit i) :
    l.foldl (fun h i => if bb1.testBit i then h ^^^ key i else h) acc =
      l.foldl (fun h i => if bb2.testBit i then h ^^^ key i else h) acc := by
  induction l generalizing acc with
  | nil => rfl
  | cons a t ih =>
    simp only [List.foldl_cons]
    rw [hagree a (List.mem_cons_self ..)]
    exact ih _ (fun i hi => hagree i (List.mem_cons_of_mem _ hi))

theorem foldl_hash_toggle (bb : Nat) (key : Nat → Nat) (sq : Nat) (l : List Nat) (acc : Nat)
    (hmem : sq ∈ l) (hnd : l.Nodup) :
    l.foldl (fun h i => if (bb ^^^ (1 <<< sq)).testBit i then h ^^^ key i else h) acc =
      l.foldl (fun h i => if bb.testBit i then h ^^^ key i else h) acc ^^^ key sq := by
  induction l generalizing acc with
  | nil => simp at hmem
  | cons a t ih =>
    simp only [List.foldl_cons]
    rcases List.mem_cons.mp hmem with rfl | hmem2
    · have hnotin : sq ∉ t := (List.nodup_cons.mp hnd).1
      rw [testBit_toggle_self]
      by_cases hb : bb.testBit sq
      · simp only [hb, Bool.not_true, Bool.false_eq_true, if_false, if_true]
        rw [foldl_hash_congr (bb ^^^ (1 <<< sq)) bb key t acc
          (fun i hi => testBit_toggle_ne bb sq i (fun hc => hnotin (hc ▸ hi))),
          foldl_hash_acc, Nat.xor_assoc, Nat.xor_self, Nat.xor_zero]
      · simp only [hb, Bool.not_false, Bool.false_eq_true, if_false, if_true]
        rw [foldl_hash_congr (bb ^^^ (1 <<< sq)) bb key t (acc ^^^ key sq)
          (fun i hi => testBit_toggle_ne bb sq i (fun hc => hnotin (hc ▸ hi))),
          foldl_hash_acc]
    · have hane : a ≠ sq := by
        rintro rfl
        exact (List.nodup_cons.mp hnd).1 hmem2
      rw [testBit_toggle_ne bb sq a hane]
      by_cases hb : bb.testBit a
      · rw [if_pos hb, ih _ hmem2 (List.nodup_cons.mp hnd).2]
      · rw [if_neg hb, ih _ hmem2 (List.nodup_cons.mp hnd).2]

theorem hashBB_toggle (bb : Nat) (key : Nat → Nat) (sq : Nat) (hsq : sq < 64) :
    hashBB (bb ^^^ (1 <<< sq)) key = hashBB bb key ^^^ key sq :=
  foldl_hash_toggle bb key sq (List.range 64) 0 (List.mem_range.mpr hsq) (List.nodup_range 64)

theorem hashBB_congr (bb1 bb2 : Nat) (key : Nat → Nat)
    (h : ∀ i, i < 64 → bb1.testBit i = bb2.testBit i) :
    hashBB bb1 key = hashBB bb2 key :=
  foldl_hash_congr bb1 bb2 key (List.range 64) 0 (fun i hi => h i (List.mem_range.mp hi))

theorem lor_mask_eq_xor (bb sq : Nat) (h : bb.testBit sq = false) :
    bb ||| (1 <<< sq) = bb ^^^ (1 <<< sq) := by
  apply Nat.eq_of_testBit_eq
  intro i
  rw [Nat.testBit_or, Nat.testBit_xor, Nat.one_shiftLeft, Nat.testBit_two_pow]
  by_cases hi : sq = i
  · subst hi
    simp [h]
  · simp [hi]

theorem hashBB_remove (bb : Nat) (key : Nat → Nat) (sq : Nat) (hsq : sq < 64)
    (hbit : bb.testBit sq = true) :
    hashBB (bb &&& bbNot (squareBB sq)) key = hashBB bb key ^^^ key sq := by
  rw [← hashBB_toggle bb key sq hsq]
  apply hashBB_congr
  intro i hi
  rw [Nat.testBit_and, Nat.testBit_xor]
  unfold bbNot bbFull squareBB
  rw [Nat.testBit_xor, Nat.testBit_two_pow_sub_one, Nat.one_shiftLeft, Nat.testBit_two_pow]
  by_cases hsqi : sq = i
  · subst hsqi
    simp [hbit, hsq]
  · simp [hsqi, hi]

theorem hashTail_decomp (k : ZKeys) (ws wl bs bl : Bool) (ep : Option Nat) (h : Nat) :
    hashTail k ws wl bs bl ep h =
      h ^^^ (if ws then k.castling 0 0 else 0) ^^^ (if wl then k.castling 0 1 else 0) ^^^
        (if bs then k.castling 1 0 else 0) ^^^ (if bl then k.castling 1 1 else 0) ^^^
        epContrib k ep := by
  unfold hashTail epContrib
  cases ep <;> cases ws <;> cases wl <;> cases bs <;> cases bl <;>
    simp only [if_true, if_false] <;> simp [Nat.xor_assoc]

/-- `ComputeHash` as a flat XOR of the side-to-move key, twelve board
hashes, four castling keys and the en-passant key. -/
theorem computeHash_decomp (k : ZKeys) (p : PositionE) :
    computeHash k p =
      (if p.sideToMove = ColorE.black then k.blackToMove else 0) ^^^
      hashBB p.white.pawns (k.piece 0 0) ^^^ hashBB p.white.knights (k.piece 0 1) ^^^
      hashBB p.white.bishops (k.piece 0 2) ^^^ hashBB p.white.rooks (k.piece 0 3) ^^^
      hashBB p.white.queens (k.piece 0 4) ^^^ hashBB p.white.king (k.piece 0 5) ^^^
      hashBB p.black.pawns (k.piece 1 0) ^^^ hashBB p.black.knights (k.piece 1 1) ^^^
      hashBB p.black.bishops (k.piece 1 2) ^^^ hashBB p.black.rooks (k.piece 1 3) ^^^
      hashBB p.black.queens (k.piece 1 4) ^^^ hashBB p.black.king (k.piece 1 5) ^^^
      (if p.whiteShortCastle then k.castling 0 0 else 0) ^^^
      (if p.whiteLongCastle then k.castling 0 1 else 0) ^^^
      (if p.blackShortCastle then k.castling 1 0 else 0) ^^^
      (if p.blackLongCastle then k.castling 1 1 else 0) ^^^
      epContrib k p.epSquare := by
  unfold computeHash
  rw [hashTail_decomp]

theorem and_mask_ne_zero_iff (bb sq : Nat) :
    bb &&& squareBB sq ≠ 0 ↔ bb.testBit sq = true := by
  unfold squareBB
  rw [Nat.one_shiftLeft]
  constructor
  · intro h
    by_contra hc
    apply h
    apply Nat.eq_of_testBit_eq
    intro i
    rw [Nat.testBit_and, Nat.testBit_two_pow, Nat.zero_testBit]
    by_cases hi : sq = i
    · subst hi
      simp only [Bool.not_eq_true] at hc
      simp [hc]
    · simp [hi]
  · intro h h0
    have := congrArg (fun n => n.testBit sq) h0
    simp only [Nat.testBit_and, Nat.testBit_two_pow, Nat.zero_testBit] at this
    simp [h] at this

theorem occupied_empty_bit (s : SidePositionE) (sq : Nat) (piece : PieceE)
    (h : s.occupied &&& squareBB sq = 0) :
    (s.pieceBB piece).testBit sq = false := by
  have h2 : s.occupied.testBit sq = false := by
    by_contra hc
    simp only [Bool.not_eq_false] at hc
    exact (and_mask_ne_zero_iff s.occupied sq).mpr hc h
  unfold SidePositionE.occupied at h2
  simp only [Nat.testBit_or, Bool.or_eq_false_iff] at h2
  obtain ⟨⟨⟨⟨⟨hp, hn⟩, hb⟩, hr⟩, hq⟩, hk⟩ := h2
  cases piece <;> simp [SidePositionE.pieceBB, Nat.zero_testBit, hp, hn, hb, hr, hq, hk]

theorem getPieceAtSquare_bit (s : SidePositionE) (sq : Nat)
    (h : s.getPieceAtSquare sq ≠ PieceE.none) :
    (s.pieceBB (s.getPieceAtSquare sq)).testBit sq = true := by
  unfold SidePositionE.getPieceAtSquare at h ⊢
  dsimp only at h ⊢
  split_ifs at h ⊢ with h1 h2 h3 h4 h5 h6 <;>
    simp only [SidePositionE.pieceBB] <;>
    first
    | exact (and_mask_ne_zero_iff _ _).mp (by assumption)
    | exact absurd rfl h

theorem computeHash_setPiece (k : ZKeys) (p : PositionE) (sq : Nat) (piece : PieceE)
    (color : ColorE) (hsq : sq < 64) (hp : piece ≠ PieceE.none)
    (hfree : ((p.side color).pieceBB piece).testBit sq = false) :
    computeHash k (setPiece k p sq piece color) =
      computeHash k p ^^^ k.piece (colorIdx color) (pieceIdx piece) sq := by
  cases color <;> cases piece <;>
    first
    | exact absurd rfl hp
    | (simp only [PositionE.side, SidePositionE.pieceBB] at hfree
       rw [computeHash_decomp, computeHash_decomp]
       simp only [setPiece, PositionE.updateSide, SidePositionE.updateBB, colorIdx, pieceIdx,
         squareBB]
       rw [lor_mask_eq_xor _ _ hfree, hashBB_toggle _ _ _ hsq]
       ac_rfl)

theorem computeHash_removePiece (k : ZKeys) (p : PositionE) (sq : Nat) (piece : PieceE)
    (color : ColorE) (hsq : sq < 64) (hp : piece ≠ PieceE.none)
    (hbit : ((p.side color).pieceBB piece).testBit sq = true) :
    computeHash k (removePiece k p sq piece color) =
      computeHash k p ^^^ k.piece (colorIdx color) (pieceIdx piece) sq := by
  cases color <;> cases piece <;>
    first
    | exact absurd rfl hp
    | (simp only [PositionE.side, SidePositionE.pieceBB] at hbit
       rw [computeHash_decomp, computeHash_decomp]
       simp only [removePiece, PositionE.updateSide, SidePositionE.updateBB, colorIdx, pieceIdx]
       rw [hashBB_remove _ _ _ hsq hbit]
       ac_rfl)

theorem hashConsistent_setPiece (k : ZKeys) (p : PositionE) (sq : Nat) (piece : PieceE)
    (color : ColorE) (hok : hashConsistent k p) (hsq : sq < 64) (hp : piece ≠ PieceE.none)
    (hfree : ((p.side color).pieceBB piece).testBit sq = false) :
    hashConsistent k (setPiece k p sq piece color) := by
  show (setPiece k p sq piece color).hash = _
  rw [computeHash_setPiece k p sq piece color hsq hp hfree]
  have hh : (setPiece k p sq piece color).hash =
      p.hash ^^^ k.piece (colorIdx color) (pieceIdx piece) sq := by
    cases color <;> rfl
  rw [hh, hok]

theorem hashConsistent_removePiece (k : ZKeys) (p : PositionE) (sq : Nat) (piece : PieceE)
    (color : ColorE) (hok : hashConsistent k p) (hsq : sq < 64) (hp : piece ≠ PieceE.none)
    (hbit : ((p.side color).pieceBB piece).testBit sq = true) :
    hashConsistent k (removePiece k p sq piece color) := by
  show (removePiece k p sq piece color).hash = _
  rw [computeHash_removePiece k p sq piece color hsq hp hbit]
  have hh : (removePiece k p sq piece color).hash =
      p.hash ^^^ k.piece (colorIdx color) (pieceIdx piece) sq := by
    cases color <;> rfl
  rw [hh, hok]

theorem xor_cancel_right (x c : Nat) : (x ^^^ c) ^^^ c = x := by
  rw [Nat.xor_assoc, Nat.xor_self, Nat.xor_zero]

theorem hashConsistent_setEnPassantSquare (k : ZKeys) (p : PositionE) (ep : Option Nat)
    (hok : hashConsistent k p) :
    hashConsistent k (setEnPassantSquare k p ep) := by
  unfold hashConsistent at hok ⊢
  unfold setEnPassantSquare
  rw [computeHash_decomp] at hok
  rw [computeHash_decomp]
  dsimp only
  cases hpe : p.epSquare with
  | none =>
    cases ep with
    | none =>
      rw [hok, hpe]
    | some s =>
      rw [hok, hpe]
      simp only [epContrib, Nat.xor_zero]
  | some o =>
    cases ep with
    | none =>
      rw [hok, hpe]
      simp only [epContrib, Nat.xor_zero]
      exact xor_cancel_right _ _
    | some s =>
      rw [hok, hpe]
      simp only [epContrib]
      rw [xor_cancel_right]

theorem xor_right_injective (c a b : Nat) (h : a ^^^ c = b ^^^ c) : a = b := by
  rw [← xor_cancel_right a c, h, xor_cancel_right]

theorem hashConsistent_clearRookCastlingRights (k : ZKeys) (p : PositionE) (sq : Nat)
    (hok : hashConsistent k p) :
    hashConsistent k (clearRookCastlingRights k p sq) := by
  unfold hashConsistent at hok ⊢
  unfold clearRookCastlingRights
  rw [computeHash_decomp] at hok
  by_cases h7 : sq = 7
  · rw [if_pos h7, computeHash_decomp]
    dsimp only
    cases hwc : p.whiteShortCastle <;> rw [hwc] at hok <;>
      simp only [Bool.false_eq_true, if_false, if_true, Nat.xor_zero] at hok ⊢ <;> rw [hok]
    apply xor_right_injective (k.castling 0 0)
    rw [xor_cancel_right]
    ac_rfl
  · rw [if_neg h7]
    by_cases h0 : sq = 0
    · rw [if_pos h0, computeHash_decomp]
      dsimp only
      cases hwc : p.whiteLongCastle <;> rw [hwc] at hok <;>
        simp only [Bool.false_eq_true, if_false, if_true, Nat.xor_zero] at hok ⊢ <;> rw [hok]
      apply xor_right_injective (k.castling 0 1)
      rw [xor_cancel_right]
      ac_rfl
    · rw [if_neg h0]
      by_cases h63 : sq = 63
      · rw [if_pos h63, computeHash_decomp]
        dsimp only
        cases hwc : p.blackShortCastle <;> rw [hwc] at hok <;>
          simp only [Bool.false_eq_true, if_false, if_true, Nat.xor_zero] at hok ⊢ <;> rw [hok]
        apply xor_right_injective (k.castling 1 0)
        rw [xor_cancel_right]
        ac_rfl
      · rw [if_neg h63]
        by_cases h56 : sq = 56
        · rw [if_pos h56, computeHash_decomp]
          dsimp only
          cases hwc : p.blackLongCastle <;> rw [hwc] at hok <;>
            simp only [Bool.false_eq_true, if_false, if_true, Nat.xor_zero] at hok ⊢ <;>
            rw [hok]
          apply xor_right_injective (k.castling 1 1)
          rw [xor_cancel_right]
          ac_rfl
        · rw [if_neg h56]
          rw [computeHash_decomp]
          exact hok

theorem hashConsistent_clearCastlingRightsOnKingMove (k : ZKeys) (p : PositionE)
    (hok : hashConsistent k p) :
    hashConsistent k (clearCastlingRightsOnKingMove k p) := by
  unfold hashConsistent at hok ⊢
  unfold clearCastlingRightsOnKingMove
  rw [computeHash_decomp] at hok
  cases hstm : p.sideToMove
  · rw [hstm] at hok
    rw [computeHash_decomp]
    dsimp only
    cases hwc : p.whiteShortCastle <;> cases hwl : p.whiteLongCastle <;>
      rw [hwc, hwl] at hok <;>
      simp only [Bool.false_eq_true, if_false, if_true, Nat.xor_zero] at hok ⊢ <;> rw [hok] <;>
      try ac_rfl
    case false.true =>
      apply xor_right_injective (k.castling 0 1)
      rw [xor_cancel_right]
      ac_rfl
    case true.false =>
      apply xor_right_injective (k.castling 0 0)
      rw [xor_cancel_right]
      ac_rfl
    case true.true =>
      apply xor_right_injective (k.castling 0 1)
      rw [xor_cancel_right]
      apply xor_right_injective (k.castling 0 0)
      rw [xor_cancel_right]
      ac_rfl
  · rw [hstm] at hok
    rw [computeHash_decomp]
    dsimp only
    cases hwc : p.blackShortCastle <;> cases hwl : p.blackLongCastle <;>
      rw [hwc, hwl] at hok <;>
      simp only [Bool.false_eq_true, if_false, if_true, Nat.xor_zero] at hok ⊢ <;> rw [hok] <;>
      try ac_rfl
    case false.true =>
      apply xor_right_injective (k.castling 1 1)
      rw [xor_cancel_right]
      ac_rfl
    case true.false =>
      apply xor_right_injective (k.castling 1 0)
      rw [xor_cancel_right]
      ac_rfl
    case true.true =>
      apply xor_right_injective (k.castling 1 1)
      rw [xor_cancel_right]
      apply xor_right_injective (k.castling 1 0)
      rw [xor_cancel_right]
      ac_rfl

theorem hashConsistent_flip (k : ZKeys) (p : PositionE) (hok : hashConsistent k p) :
    hashConsistent k
      { p with sideToMove := p.sideToMove.opposite, hash := p.hash ^^^ k.blackToMove } := by
  unfold hashConsistent at hok ⊢
  rw [computeHash_decomp] at hok
  rw [computeHash_decomp]
  dsimp only
  cases hstm : p.sideToMove <;> rw [hstm] at hok <;>
    simp only [ColorE.opposite, reduceCtorEq, if_false, if_true, if_pos rfl, Nat.zero_xor,
      Nat.xor_zero] at hok ⊢ <;> rw [hok]
  · ac_rfl
  · apply xor_right_injective k.blackToMove
    rw [xor_cancel_right]
    ac_rfl

/-! ### Per-step hash preservation -/

theorem fromSquare_lt (m : MoveE) : m.fromSquare < 64 :=
  Nat.lt_succ_of_le Nat.and_le_right

theorem toSquare_lt (m : MoveE) : m.toSquare < 64 :=
  Nat.lt_succ_of_le Nat.and_le_right

theorem hashConsistent_removeFromStep (k : ZKeys) (q : PositionE) (move : MoveE)
    (hok : hashConsistent k q) (hp : move.piece ≠ PieceE.none)
    (hbit : ((q.side q.sideToMove).pieceBB move.piece).testBit move.fromSquare = true) :
    hashConsistent k (doMoveRemoveFromStep k q move) :=
  hashConsistent_removePiece k q move.fromSquare move.piece q.sideToMove hok
    (fromSquare_lt move) hp hbit

theorem hashConsistent_captureStep (k : ZKeys) (q : PositionE) (move : MoveE)
    (hok : hashConsistent k q)
    (hcap : move.isCapture = true → move.isEnPassant = false →
      q.opponentSide.getPieceAtSquare move.toSquare ≠ PieceE.none) :
    hashConsistent k (doMoveCaptureStep k q move) := by
  unfold doMoveCaptureStep
  split
  · rename_i hc
    apply hashConsistent_clearRookCastlingRights
    split
    · rename_i hep
      simp only [Bool.not_eq_eq_eq_not, Bool.not_true] at hep
      have hne := hcap hc hep
      exact hashConsistent_removePiece k q move.toSquare _ q.sideToMove.opposite hok
        (toSquare_lt move) hne (getPieceAtSquare_bit _ _ hne)
    · exact hok
  · exact hok

theorem hashConsistent_placeStep (k : ZKeys) (q : PositionE) (move : MoveE)
    (hok : hashConsistent k q) (hp : move.piece ≠ PieceE.none)
    (hocc : (q.side q.sideToMove).occupied &&& squareBB move.toSquare = 0) :
    hashConsistent k (doMovePlaceStep k q move) := by
  unfold doMovePlaceStep
  have htp : (if move.piece = PieceE.pawn ∧ move.promoteTo ≠ PieceE.none then move.promoteTo
      else move.piece) ≠ PieceE.none := by
    split
    · rename_i hc
      exact hc.2
    · exact hp
  exact hashConsistent_setPiece k q move.toSquare _ q.sideToMove hok (toSquare_lt move) htp
    (occupied_empty_bit _ _ _ hocc)

theorem hashConsistent_epCaptureStep (k : ZKeys) (q : PositionE) (move : MoveE)
    (hok : hashConsistent k q)
    (hep5 : move.isEnPassant = true → move.toSquare / 8 = 5 →
      ((q.side q.sideToMove.opposite).pieceBB PieceE.pawn).testBit
        (8 * 4 + move.toSquare % 8) = true)
    (hep2 : move.isEnPassant = true → move.toSquare / 8 = 2 →
      ((q.side q.sideToMove.opposite).pieceBB PieceE.pawn).testBit
        (8 * 3 + move.toSquare % 8) = true) :
    hashConsistent k (doMoveEpCaptureStep k q move) := by
  unfold doMoveEpCaptureStep
  have hmod : move.toSquare % 8 < 8 := Nat.mod_lt _ (by norm_num)
  split
  · rename_i hep
    split
    · rename_i h5
      exact hashConsistent_removePiece k q _ PieceE.pawn q.sideToMove.opposite hok
        (by omega) (by simp) (hep5 hep h5)
    · split
      · rename_i h2
        exact hashConsistent_removePiece k q _ PieceE.pawn q.sideToMove.opposite hok
          (by omega) (by simp) (hep2 hep h2)
      · exact hok
  · exact hok

theorem hashConsistent_epSquareStep (k : ZKeys) (q : PositionE) (move : MoveE)
    (hok : hashConsistent k q) :
    hashConsistent k (doMoveEpSquareStep k q move) :=
  hashConsistent_setEnPassantSquare k q _ hok

theorem hashConsistent_kingStep (k : ZKeys) (q : PositionE) (move : MoveE)
    (hok : hashConsistent k q)
    (hshort : move.piece = PieceE.king → move.isCastling = true →
      move.fromSquare % 8 = 4 ∧ move.toSquare % 8 = 6 →
      ((q.side q.sideToMove).pieceBB PieceE.rook).testBit
        (8 * (move.fromSquare / 8) + 7) = true ∧
      (((removePiece k q (8 * (move.fromSquare / 8) + 7) PieceE.rook q.sideToMove).side
        (removePiece k q (8 * (move.fromSquare / 8) + 7) PieceE.rook
          q.sideToMove).sideToMove).occupied &&&
        squareBB (8 * (move.fromSquare / 8) + 5)) = 0)
    (hlong : move.piece = PieceE.king → move.isCastling = true →
      ¬(move.fromSquare % 8 = 4 ∧ move.toSquare % 8 = 6) →
      move.fromSquare % 8 = 4 ∧ move.toSquare % 8 = 2 →
      ((q.side q.sideToMove).pieceBB PieceE.rook).testBit
        (8 * (move.fromSquare / 8) + 0) = true ∧
      (((removePiece k q (8 * (move.fromSquare / 8) + 0) PieceE.rook q.sideToMove).side
        (removePiece k q (8 * (move.fromSquare / 8) + 0) PieceE.rook
          q.sideToMove).sideToMove).occupied &&&
        squareBB (8 * (move.fromSquare / 8) + 3)) = 0) :
    hashConsistent k (doMoveKingStep k q move) := by
  unfold doMoveKingStep
  have hfr : move.fromSquare / 8 < 8 := by
    have := fromSquare_lt move
    omega
  split
  · rename_i hk
    apply hashConsistent_clearCastlingRightsOnKingMove
    split
    · rename_i hc
      split
      · rename_i h6
        obtain ⟨hb1, hb2⟩ := hshort hk hc h6
        exact hashConsistent_setPiece k _ _ PieceE.rook _
          (hashConsistent_removePiece k q _ PieceE.rook q.sideToMove hok (by omega)
            (by simp) hb1)
          (by omega) (by simp) (occupied_empty_bit _ _ _ hb2)
      · split
        · rename_i h6 h2
          obtain ⟨hb1, hb2⟩ := hlong hk hc h6 h2
          exact hashConsistent_setPiece k _ _ PieceE.rook _
            (hashConsistent_removePiece k q _ PieceE.rook q.sideToMove hok (by omega)
              (by simp) hb1)
            (by omega) (by simp) (occupied_empty_bit _ _ _ hb2)
        · exact hok
    · exact hok
  · exact hok

theorem hashConsistent_rookStep (k : ZKeys) (q : PositionE) (move : MoveE)
    (hok : hashConsistent k q) :
    hashConsistent k (doMoveRookStep k q move) := by
  unfold doMoveRookStep
  split
  · exact hashConsistent_clearRookCastlingRights k q move.fromSquare hok
  · exact hok

theorem hashConsistent_moveCount (k : ZKeys) (q : PositionE) (n : Nat)
    (hok : hashConsistent k q) : hashConsistent k { q with moveCount := n } :=
  hok

theorem hashConsistent_halfMoveCount (k : ZKeys) (q : PositionE) (n : Nat)
    (hok : hashConsistent k q) : hashConsistent k { q with halfMoveCount := n } :=
  hok

theorem hashConsistent_countersStep (k : ZKeys) (q : PositionE) (move : MoveE)
    (hok : hashConsistent k q) :
    hashConsistent k (doMoveCountersStep q move) := by
  unfold doMoveCountersStep
  dsimp only
  split
  · split
    · exact hashConsistent_halfMoveCount k _ _ (hashConsistent_moveCount k q _ hok)
    · exact hashConsistent_halfMoveCount k _ _ (hashConsistent_moveCount k q _ hok)
  · split
    · exact hashConsistent_halfMoveCount k _ _ hok
    · exact hashConsistent_halfMoveCount k _ _ hok

theorem hashConsistent_flipStep (k : ZKeys) (q : PositionE) (hok : hashConsistent k q) :
    hashConsistent k (doMoveFlipStep k q) :=
  hashConsistent_flip k q hok

/-- C10: for every Zobrist key assignment, every position whose maintained
hash equals `ComputeHash()` and every move satisfying `DoMove`'s assert
contracts, the position produced by `DoMove` (and likewise by `DoNullMove`)
again has its incrementally maintained hash field bit-equal to a
from-scratch `ComputeHash()`: every board mutation performed during the move
keeps the Zobrist hash consistent with the full recomputation. -/
theorem doMove_zobrist_consistency (k : ZKeys) (p : PositionE) (move : MoveE)
    (hok : hashConsistent k p) (hpre : doMovePre k p move) :
    hashConsistent k (doMove k p move) ∧ hashConsistent k (doNullMove k p) := by
  constructor
  · unfold doMovePre at hpre
    dsimp only at hpre
    obtain ⟨hp, hbit, hcap, hocc, hep5, hep2, hshort, hlong⟩ := hpre
    unfold doMove
    have h1 := hashConsistent_removeFromStep k p move hok hp hbit
    have h2 := hashConsistent_captureStep k _ move h1 hcap
    have h3 := hashConsistent_placeStep k _ move h2 hp hocc
    have h4 := hashConsistent_epCaptureStep k _ move h3 hep5 hep2
    have h5 := hashConsistent_epSquareStep k _ move h4
    have h6 := hashConsistent_kingStep k _ move h5 hshort hlong
    have h7 := hashConsistent_rookStep k _ move h6
    have h8 := hashConsistent_countersStep k _ move h7
    exact hashConsistent_flipStep k _ h8
  · unfold doNullMove
    dsimp only
    apply hashConsistent_flipStep
    apply hashConsistent_halfMoveCount
    split
    · exact hashConsistent_moveCount k _ _ (hashConsistent_setEnPassantSquare k p none hok)
    · exact hashConsistent_setEnPassantSquare k p none hok

/-- Witness for C10: the white short-castling move on the concrete position
keeps the incremental hash equal to the recomputation. -/
theorem doMove_zobrist_consistency_witness :
    hashConsistent zkeysW posCastleWH ∧ doMovePre zkeysW posCastleWH mvCastleW ∧
    hashConsistent zkeysW (doMove zkeysW posCastleWH mvCastleW) := by
  have hok : hashConsistent zkeysW posCastleWH := by
    show posCastleWH.hash = computeHash zkeysW posCastleWH
    rfl
  have hpre : doMovePre zkeysW posCastleWH mvCastleW := by
    unfold doMovePre
    dsimp only
    refine ⟨by decide, by decide, by decide, by decide, by decide, by decide, ?_, by decide⟩
    intro h1 h2 h3
    exact ⟨by decide, by decide⟩
  exact ⟨hok, hpre, (doMove_zobrist_consistency zkeysW posCastleWH mvCastleW hok hpre).1⟩

end Caissa
